import Mathlib

/-!
Verification of the Smart-Clinic scheduling engine
(`src/backend/services/queueService.js`, first revision in the file, whose
line numbers the claims reference).

The engine is embedded shallowly:
* MongoDB collections become Lean lists kept in insertion order
  (`State.users`, `State.staffs`); `findById` / `save` become list lookup
  and in-place replacement by id.
* JavaScript numbers that undergo division (timestamps in milliseconds,
  scores, workloads, service durations) are modelled as exact fractions
  (`Q` below): an unnormalised `Int` numerator over a positive `Nat`
  denominator.  All field operations are kernel-reducible, and the
  `Q.val : Q → ℚ` homomorphism carries algebraic reasoning into `ℚ`.
* The in-memory heap-js priority heap is modelled by its entry list
  (insertion order); each engine operation additionally returns the trace
  of index operations it performed (`IndexEv.push` for `heap.push`,
  `IndexEv.rebuild` for `_rebuildHeap`), which is the faithful record of
  the index side effects of the source.
* `throw` becomes an `Except.error` result carrying the state at the
  throw point (JavaScript exceptions do not roll back prior `save`s).
-/

deriving instance DecidableEq for Except

namespace SmartClinic

/-- Exact fraction: numerator over a positive denominator, not reduced.
All operations avoid `Nat.gcd` so that the kernel can evaluate them. -/
structure Q where
  num : Int
  den : Nat
  den_pos : 0 < den

instance : DecidableEq Q := fun a b =>
  decidable_of_iff (a.num = b.num ∧ a.den = b.den) (by
    cases a; cases b; simp)

/-- Embed an integer as a fraction. -/
def Q.ofInt (n : Int) : Q := ⟨n, 1, Nat.one_pos⟩

instance : Neg Q := ⟨fun q => ⟨-q.num, q.den, q.den_pos⟩⟩

instance : Add Q :=
  ⟨fun a b => ⟨a.num * b.den + b.num * a.den, a.den * b.den,
    Nat.mul_pos a.den_pos b.den_pos⟩⟩

instance : Sub Q :=
  ⟨fun a b => ⟨a.num * b.den - b.num * a.den, a.den * b.den,
    Nat.mul_pos a.den_pos b.den_pos⟩⟩

instance : Mul Q :=
  ⟨fun a b => ⟨a.num * b.num, a.den * b.den,
    Nat.mul_pos a.den_pos b.den_pos⟩⟩

/-- Division by a positive natural constant (the only division the engine
performs is by the constant 60000). -/
def Q.divByNat (q : Q) (k : Nat) (h : 0 < k) : Q :=
  ⟨q.num, q.den * k, Nat.mul_pos q.den_pos h⟩

/-- Value order: `a ≤ b` by cross multiplication with positive denominators. -/
def Q.ble (a b : Q) : Bool := a.num * b.den ≤ b.num * a.den

/-- Strict value order. -/
def Q.blt (a b : Q) : Bool := a.num * b.den < b.num * a.den

/-- Value equality (two fractions denote the same rational). -/
def Q.veq (a b : Q) : Prop := a.num * b.den = b.num * a.den

instance (a b : Q) : Decidable (a.veq b) := by unfold Q.veq; infer_instance

/-- `Math.max(0, q)` on values. -/
def Q.max0 (q : Q) : Q := if Q.ble (Q.ofInt 0) q then q else Q.ofInt 0

/-- `Math.round(q)`: nearest integer, halves toward positive infinity,
i.e. `⌊q + 1/2⌋`, computed as a floor division of integers. -/
def Q.jsRound (q : Q) : Int := (2 * q.num + (q.den : Int)) / ((2 * q.den : Nat) : Int)

/-- Rational value denoted by a fraction. -/
def Q.val (q : Q) : ℚ := (q.num : ℚ) / (q.den : ℚ)

theorem Q.den_ne (q : Q) : ((q.den : ℚ)) ≠ 0 := by
  exact_mod_cast Nat.pos_iff_ne_zero.mp q.den_pos

theorem Q.val_ofInt (n : Int) : (Q.ofInt n).val = (n : ℚ) := by
  simp [Q.val, Q.ofInt]

theorem Q.val_zero : (Q.ofInt 0).val = 0 := by
  rw [Q.val_ofInt]
  norm_num

theorem Q.val_neg (q : Q) : (-q).val = -q.val := by
  show Q.val ⟨-q.num, q.den, q.den_pos⟩ = _
  simp [Q.val, neg_div]

theorem Q.val_add (a b : Q) : (a + b).val = a.val + b.val := by
  show Q.val ⟨a.num * b.den + b.num * a.den, a.den * b.den, _⟩ = _
  unfold Q.val
  rw [div_add_div _ _ a.den_ne b.den_ne]
  push_cast
  ring_nf

theorem Q.val_sub (a b : Q) : (a - b).val = a.val - b.val := by
  show Q.val ⟨a.num * b.den - b.num * a.den, a.den * b.den, _⟩ = _
  unfold Q.val
  rw [div_sub_div _ _ a.den_ne b.den_ne]
  push_cast
  ring_nf

theorem Q.val_mul (a b : Q) : (a * b).val = a.val * b.val := by
  show Q.val ⟨a.num * b.num, a.den * b.den, _⟩ = _
  unfold Q.val
  rw [div_mul_div_comm]
  push_cast
  ring_nf

theorem Q.val_divByNat (q : Q) (k : Nat) (h : 0 < k) :
    (q.divByNat k h).val = q.val / (k : ℚ) := by
  unfold Q.val Q.divByNat
  rw [div_div]
  push_cast
  ring_nf

theorem Q.den_q_pos (q : Q) : (0 : ℚ) < (q.den : ℚ) := by
  exact_mod_cast q.den_pos

theorem Q.ble_iff (a b : Q) : a.ble b = true ↔ a.val ≤ b.val := by
  unfold Q.ble Q.val
  rw [div_le_div_iff a.den_q_pos b.den_q_pos]
  constructor
  · intro h
    exact_mod_cast decide_eq_true_eq.mp h
  · intro h
    exact decide_eq_true_eq.mpr (by exact_mod_cast h)

theorem Q.blt_iff (a b : Q) : a.blt b = true ↔ a.val < b.val := by
  unfold Q.blt Q.val
  rw [div_lt_div_iff a.den_q_pos b.den_q_pos]
  constructor
  · intro h
    exact_mod_cast decide_eq_true_eq.mp h
  · intro h
    exact decide_eq_true_eq.mpr (by exact_mod_cast h)

theorem Q.veq_iff (a b : Q) : a.veq b ↔ a.val = b.val := by
  unfold Q.veq Q.val
  rw [div_eq_div_iff a.den_ne b.den_ne]
  constructor
  · intro h
    exact_mod_cast h
  · intro h
    exact_mod_cast h

theorem Q.num_zero_iff (q : Q) : q.num = 0 ↔ q.val = 0 := by
  unfold Q.val
  rw [div_eq_zero_iff]
  constructor
  · intro h
    exact Or.inl (by exact_mod_cast h)
  · rintro (h | h)
    · exact_mod_cast h
    · exact absurd h q.den_ne

theorem Q.val_max0 (q : Q) : q.max0.val = max 0 q.val := by
  unfold Q.max0
  by_cases h : Q.ble (Q.ofInt 0) q = true
  · rw [if_pos h]
    have := (Q.ble_iff (Q.ofInt 0) q).mp h
    rw [Q.val_zero] at this
    exact (max_eq_right this).symm
  · rw [if_neg h]
    have := (Q.ble_iff (Q.ofInt 0) q).not.mp h
    rw [Q.val_zero] at this
    push_neg at this
    rw [Q.val_zero]
    exact (max_eq_left this.le).symm

theorem Q.jsRound_eq_floor (q : Q) : q.jsRound = ⌊q.val + 1 / 2⌋ := by
  unfold Q.jsRound
  rw [← Rat.floor_intCast_div_natCast (2 * q.num + (q.den : Int)) (2 * q.den)]
  congr 1
  unfold Q.val
  have hden := q.den_ne
  field_simp
  ring

/-- `visit_type` enum of the User schema. -/
inductive VisitType
  | emergency
  | regular
  | follow_up
deriving DecidableEq

/-- Patient lifecycle statuses named by the spec (§4.4). -/
inductive Status
  | inactive
  | waiting
  | scheduled
  | serving
  | completed
  | cancelled
  | noShow
  | booked
  | followUp
deriving DecidableEq

/-- A Mongo `User` document (models/User.js plus the fields
`queue_entry_time`, `appointment_date`, `preferred_doctor` written by
queueService.js).  Timestamps are milliseconds since the epoch. -/
structure UserR where
  id : Nat
  visit_type : VisitType
  priority_level : Int
  estimated_service_time : Q
  arrival_time : Q
  queue_entry_time : Option Q
  appointment_date : Option Q
  preferred_doctor : Option Nat
  assigned_staff_id : Option Nat
  status : Status
  score : Q
deriving DecidableEq

/-- A Mongo `Staff` document (models/Staff.js).  The `"HH:MM"` window
strings appear here already parsed to minutes of the day, exactly as
`_findBestStaff` computes them (`sh * 60 + sm`). -/
structure StaffR where
  id : Nat
  start_min : Nat
  end_min : Nat
  queue : List Nat
  workload : Q
  active : Bool
deriving DecidableEq

/-- One `(user_id, score)` entry of the in-memory heap. -/
structure HeapEntry where
  user_id : Nat
  score : Q
deriving DecidableEq

/-- Durable collections plus the in-memory index.  Lists keep Mongo's
natural (insertion) order, which `find` queries return. -/
structure State where
  users : List UserR
  staffs : List StaffR
  heap : List HeapEntry
deriving DecidableEq

/-- Index side effects an operation performs, in order: a direct
`heap.push` or a full `_rebuildHeap`. -/
inductive IndexEv
  | push (e : HeapEntry)
  | rebuild
deriving DecidableEq

/-- `User.findById`. -/
def findUser (s : State) (uid : Nat) : Option UserR :=
  s.users.find? (fun u => u.id = uid)

/-- `user.save()`: replace the document with this id. -/
def saveUser (s : State) (u : UserR) : State :=
  { s with users := s.users.map (fun v => if v.id = u.id then u else v) }

/-- `Staff.findById`. -/
def findStaff (s : State) (sid : Nat) : Option StaffR :=
  s.staffs.find? (fun st => st.id = sid)

/-- `staff.save()`: replace the document with this id. -/
def saveStaff (s : State) (st : StaffR) : State :=
  { s with staffs := s.staffs.map (fun t => if t.id = st.id then st else t) }

/-- Membership of a status in JavaScript's
`['waiting', 'scheduled']` filters. -/
def isActiveStatus (st : Status) : Bool :=
  st = Status.waiting || st = Status.scheduled

/-- `x || 15` applied to an estimated service time (0 is falsy). -/
def estOr15 (e : Q) : Q := if e.num = 0 then Q.ofInt 15 else e

/-- `x || 0` applied to a stored score (0 is falsy). -/
def scoreOr0 (q : Q) : Q := if q.num = 0 then Q.ofInt 0 else q

/-- `_calculateScore`: `PRIORITY_WEIGHT * (priority_level || 3)
+ WAITING_TIME_WEIGHT * waitMinutes - STAFF_WORKLOAD_WEIGHT * 0
+ VISIT_TYPE_BONUS[visit_type] || 0`, with
`waitMinutes = (now - arrival_time) / 60000`. -/
def calculateScore (now : Q) (u : UserR) : Q :=
  let waitMinutes := (now - u.arrival_time).divByNat 60000 (by decide)
  let typeBonus : Q := match u.visit_type with
    | VisitType.emergency => Q.ofInt 20
    | VisitType.regular => Q.ofInt 0
    | VisitType.follow_up => Q.ofInt (-5)
  Q.ofInt 10 * (if u.priority_level = 0 then Q.ofInt 3 else Q.ofInt u.priority_level)
    + Q.ofInt 2 * waitMinutes - Q.ofInt 1 * Q.ofInt 0 + typeBonus

/-- `_rebuildHeap`: replace the heap with one entry per user whose status
is in `['waiting', 'scheduled']`, scored by the stored `score || 0`. -/
def rebuildHeap (s : State) : State :=
  let entries := (s.users.filter (fun u => isActiveStatus u.status)).map
    (fun u => HeapEntry.mk u.id (scoreOr0 u.score))
  { s with heap := entries }

/-- `this.heap.push(entry)` (entry list in insertion order). -/
def heapPush (s : State) (e : HeapEntry) : State :=
  { s with heap := s.heap ++ [e] }

/-- `_removeFromStaffQueue`: drop the user from their assigned staff's
queue, decrement the workload (floored at 0) only when something was
removed, save the staff, and null the in-memory `assigned_staff_id`
without saving the user. -/
def removeFromStaffQueue (s : State) (user : UserR) : State × UserR :=
  match user.assigned_staff_id with
  | none => (s, user)
  | some staffId =>
    match findStaff s staffId with
    | none => (s, user)
    | some staff =>
      let newQueue := staff.queue.filter (fun i => i ≠ user.id)
      let removed := staff.queue.length - newQueue.length
      let staff1 := { staff with
        queue := newQueue,
        workload := if 0 < removed
          then (staff.workload - estOr15 user.estimated_service_time).max0
          else staff.workload }
      (saveStaff s staff1, { user with assigned_staff_id := none })

/-- One step of `_findBestStaff`'s selection loop: keep the staff inside
their window with strictly lower workload than the best so far. -/
def bestLoop (cur : Nat) (acc : Option StaffR) (st : StaffR) : Option StaffR :=
  if st.start_min ≤ cur ∧ cur ≤ st.end_min then
    match acc with
    | none => some st
    | some b => if st.workload.blt b.workload then some st else acc
  else acc

/-- Stable insertion step of the ascending workload sort
(`(a, b) => a.workload - b.workload`). -/
def insertByWorkload (st : StaffR) : List StaffR → List StaffR
  | [] => [st]
  | b :: l =>
    if st.workload.ble b.workload then st :: b :: l
    else b :: insertByWorkload st l

/-- Stable ascending sort by workload, as JavaScript's stable
`Array.prototype.sort` produces for this comparator. -/
def sortByWorkload : List StaffR → List StaffR
  | [] => []
  | st :: l => insertByWorkload st (sortByWorkload l)

/-- `_findBestStaff`: among active staff, the lowest-workload one whose
window contains `currentMin`; falling back to the lowest-workload active
staff when none is in window; `none` when no staff is active. -/
def findBestStaff (s : State) (currentMin : Nat) : Option StaffR :=
  let allStaff := s.staffs.filter (fun st => st.active)
  let best := allStaff.foldl (bestLoop currentMin) none
  match best with
  | some b => some b
  | none => if allStaff.isEmpty then none else (sortByWorkload allStaff).head?

/-- Stable insertion step of the descending score sort
(`(a, b) => b.score - a.score`). -/
def insertByScoreDesc (e : HeapEntry) : List HeapEntry → List HeapEntry
  | [] => [e]
  | b :: l =>
    if b.score.ble e.score then e :: b :: l
    else b :: insertByScoreDesc e l

/-- Stable descending sort of heap entries by score. -/
def sortByScoreDesc : List HeapEntry → List HeapEntry
  | [] => []
  | e :: l => insertByScoreDesc e (sortByScoreDesc l)

/-- `staff.populate('queue')`: resolve queue ids to user documents,
dropping ids that no longer resolve. -/
def populateQueue (s : State) (q : List Nat) : List UserR :=
  q.filterMap (fun i => findUser s i)

/-- The estimated-wait loop of `getUserStatus`: sum
`estimated_service_time || 15` over queue entries until the user's own
entry is reached. -/
def sumPreceding (s : State) (q : List Nat) (uid : Nat) : Q :=
  ((populateQueue s q).takeWhile (fun u => u.id ≠ uid)).foldl
    (fun acc u => acc + estOr15 u.estimated_service_time) (Q.ofInt 0)

/-- `position > 0 ? position : null`. -/
def posOpt (n : Nat) : Option Nat := if 0 < n then some n else none

/-- What `getUserStatus` returns beyond the user document itself. -/
structure StatusReport where
  user : UserR
  queue_position : Option Nat
  estimated_wait_minutes : Q
deriving DecidableEq

/-- The queue-position computation of `getUserStatus`: 1-based index of
the user in the heap sorted by descending score, 0 when absent. -/
def heapPosition (s : State) (uid : Nat) : Nat :=
  match (sortByScoreDesc s.heap).findIdx? (fun e => e.user_id = uid) with
  | some i => i + 1
  | none => 0

/-- `getUserStatus`: queue position from the sorted heap, estimated wait
from the assigned staff's queue, or from the global position discounted
by time already queued; zero for non-active statuses. -/
def getUserStatus (now : Q) (s : State) (uid : Nat) : Except String StatusReport :=
  match findUser s uid with
  | none => .error "User not found"
  | some user =>
    let posNum : Nat := heapPosition s uid
    let estimatedWait : Q :=
      if isActiveStatus user.status then
        match user.assigned_staff_id with
        | some stId =>
          match findStaff s stId with
          | some staff =>
            if staff.queue.isEmpty then Q.ofInt 0
            else sumPreceding s staff.queue uid
          | none => Q.ofInt 0
        | none =>
          let patientsAhead : Nat := posNum - 1
          let rawWait : Q := Q.ofInt (patientsAhead * 15)
          let minutesInQueue : Q := match user.queue_entry_time with
            | some t => (now - t).divByNat 60000 (by decide)
            | none => Q.ofInt 0
          (Q.ofInt ((rawWait - minutesInQueue).jsRound)).max0
      else Q.ofInt 0
    .ok { user := user, queue_position := posOpt posNum,
          estimated_wait_minutes := estimatedWait }

/-- Result of an engine operation: the returned value or thrown error,
the state at return or throw, and the trace of index side effects. -/
abbrev OpResult (α : Type) := Except String α × State × List IndexEv

/-- `updatePriority`: validate range 1-5 before touching anything, then
store the new priority, recompute the score and rebuild. -/
def updatePriority (now : Q) (s : State) (uid : Nat) (newPriority : Int) :
    OpResult UserR :=
  if newPriority < 1 ∨ 5 < newPriority then
    (.error "priority_level must be 1-5", s, [])
  else
    match findUser s uid with
    | none => (.error "User not found", s, [])
    | some user =>
      let u1 := { user with priority_level := newPriority }
      let u2 := { u1 with score := calculateScore now u1 }
      (.ok u2, rebuildHeap (saveUser s u2), [.rebuild])

/-- The `['waiting', 'scheduled', 'serving']` list of `updateStatus`. -/
def activeStatuses : List Status :=
  [Status.waiting, Status.scheduled, Status.serving]

/-- `updateStatus`: save the new status; when leaving the active statuses
with an assigned staff, remove from that staff's queue; rebuild. -/
def updateStatus (s : State) (uid : Nat) (status : Status) : OpResult UserR :=
  match findUser s uid with
  | none => (.error "User not found", s, [])
  | some user =>
    let oldStatus := user.status
    let u1 := { user with status := status }
    let s1 := saveUser s u1
    let s2 :=
      if oldStatus ∈ activeStatuses ∧ status ∉ activeStatuses then
        if u1.assigned_staff_id.isSome then (removeFromStaffQueue s1 u1).1 else s1
      else s1
    (.ok u1, rebuildHeap s2, [.rebuild])

/-- `scheduleUser`: refuse terminal patients, pick the best staff, mark
the user scheduled with that staff, append to the staff queue, add the
full service time to the workload, rebuild. -/
def scheduleUser (now : Q) (nowMin : Nat) (s : State) (uid : Nat) :
    OpResult (UserR × StaffR) :=
  match findUser s uid with
  | none => (.error "User not found", s, [])
  | some user =>
    if user.status = Status.cancelled ∨ user.status = Status.noShow ∨
        user.status = Status.completed then
      (.error "Cannot schedule this patient", s, [])
    else
      match findBestStaff s nowMin with
      | none => (.error "No available staff at this time", s, [])
      | some staff =>
        let u1 := { user with assigned_staff_id := some staff.id,
                              status := Status.scheduled }
        let u2 := { u1 with score := calculateScore now u1 }
        let s1 := saveUser s u2
        let staff1 := { staff with
          queue := staff.queue ++ [u2.id],
          workload := staff.workload + u2.estimated_service_time }
        let s2 := saveStaff s1 staff1
        (.ok (u2, staff1), rebuildHeap s2, [.rebuild])

/-- `assignDoctor`: remove the user from any current staff queue, reload
fresh copies, assign and schedule with the target staff, append to its
queue exactly once guarded by a duplicate check, rebuild. -/
def assignDoctor (now : Q) (s : State) (uid sid : Nat) :
    OpResult (UserR × StaffR) :=
  match findUser s uid with
  | none => (.error "User not found", s, [])
  | some user =>
    let s1 := (removeFromStaffQueue s user).1
    match findUser s1 uid with
    | none => (.error "User not found", s1, [])
    | some freshUser =>
      match findStaff s1 sid with
      | none => (.error "Staff not found", s1, [])
      | some freshStaff =>
        let fu1 := { freshUser with assigned_staff_id := some freshStaff.id,
                                    status := Status.scheduled }
        let fu2 := { fu1 with score := calculateScore now fu1 }
        let s2 := saveUser s1 fu2
        let alreadyInQueue := freshStaff.queue.any (fun i => i = uid)
        let staffFinal := if alreadyInQueue then freshStaff else
          { freshStaff with
            queue := freshStaff.queue ++ [fu2.id],
            workload := freshStaff.workload + estOr15 fu2.estimated_service_time }
        let s3 := if alreadyInQueue then s2 else saveStaff s2 staffFinal
        (.ok (fu2, staffFinal), rebuildHeap s3, [.rebuild])

/-- `cancelUser`: remove from the staff queue first, then persist the
cancelled status (so the cleared assignment is saved), rebuild. -/
def cancelUser (s : State) (uid : Nat) : OpResult UserR :=
  match findUser s uid with
  | none => (.error "User not found", s, [])
  | some user =>
    let p := removeFromStaffQueue s user
    let u2 := { p.2 with status := Status.cancelled }
    (.ok u2, rebuildHeap (saveUser p.1 u2), [.rebuild])

/-- `markCompleted`: persist the completed status first, then remove from
the staff queue without re-saving the user, rebuild. -/
def markCompleted (s : State) (uid : Nat) : OpResult UserR :=
  match findUser s uid with
  | none => (.error "User not found", s, [])
  | some user =>
    let u1 := { user with status := Status.completed }
    let s1 := saveUser s u1
    let p := if u1.assigned_staff_id.isSome
      then removeFromStaffQueue s1 u1 else (s1, u1)
    (.ok p.2, rebuildHeap p.1, [.rebuild])

/-- `markNoShow`: persist the no-show status first, then remove from the
staff queue without re-saving the user, rebuild. -/
def markNoShow (s : State) (uid : Nat) : OpResult UserR :=
  match findUser s uid with
  | none => (.error "User not found", s, [])
  | some user =>
    let u1 := { user with status := Status.noShow }
    let s1 := saveUser s u1
    let p := if u1.assigned_staff_id.isSome
      then removeFromStaffQueue s1 u1 else (s1, u1)
    (.ok p.2, rebuildHeap p.1, [.rebuild])

/-- `reassignUser`: remove from the current staff, set waiting with no
assignment, recompute the score, save, rebuild. -/
def reassignUser (now : Q) (s : State) (uid : Nat) : OpResult UserR :=
  match findUser s uid with
  | none => (.error "User not found", s, [])
  | some user =>
    let p := if user.assigned_staff_id.isSome
      then removeFromStaffQueue s user else (s, user)
    let u2 := { p.2 with status := Status.waiting, assigned_staff_id := none }
    let u3 := { u2 with score := calculateScore now u2 }
    (.ok u3, rebuildHeap (saveUser p.1 u3), [.rebuild])

/-- `emergencyOverride`: force priority 5, emergency visit type and the
sentinel score 9999; status and staff assignment are not touched. -/
def emergencyOverride (s : State) (uid : Nat) : OpResult UserR :=
  match findUser s uid with
  | none => (.error "User not found", s, [])
  | some user =>
    let u1 := { user with priority_level := 5,
                          visit_type := VisitType.emergency,
                          score := Q.ofInt 9999 }
    (.ok u1, rebuildHeap (saveUser s u1), [.rebuild])

/-- `optimizeQueue`: recompute and save every active user's score, then
rebuild and return the sorted entries. -/
def optimizeQueue (now : Q) (s : State) : OpResult (List HeapEntry) :=
  let activeUsers := s.users.filter (fun u => isActiveStatus u.status)
  let s1 := activeUsers.foldl
    (fun (st : State) (u : UserR) => saveUser st { u with score := calculateScore now u }) s
  let s2 := rebuildHeap s1
  (.ok (sortByScoreDesc s2.heap), s2, [.rebuild])

/-- `deleteStaff`: move every queued patient back to unassigned waiting,
recompute their scores, delete the staff document, rebuild. -/
def deleteStaff (now : Q) (s : State) (sid : Nat) : OpResult String :=
  match findStaff s sid with
  | none => (.error "Staff not found", s, [])
  | some staff =>
    let patientIds := staff.queue
    let s1 :=
      if patientIds.isEmpty then s
      else
        let relocate := fun (u : UserR) =>
          if patientIds.contains u.id
          then { u with assigned_staff_id := none, status := Status.waiting }
          else u
        let sA := { s with users := s.users.map relocate }
        let reassigned := sA.users.filter (fun u => patientIds.contains u.id)
        reassigned.foldl
          (fun (st : State) (u : UserR) => saveUser st { u with score := calculateScore now u }) sA
    let s2 := { s1 with staffs := s1.staffs.eraseP (fun t => t.id = sid) }
    (.ok "deleted", rebuildHeap s2, [.rebuild])

/-- The trailing `return await User.findById(userId)` of `bookAppointment`. -/
def bookFinish (s : State) (uid : Nat) : Except String UserR :=
  match findUser s uid with
  | some u => .ok u
  | none => .error "User not found"

/-- The field-assignment block of `bookAppointment` (queueService.js
lines 134-148): the updated record that is saved and pushed. -/
def bookCore (now : Q) (user : UserR) (date : Q) (visitType : VisitType)
    (preferredDoctorId : Option Nat) : UserR :=
  let u1 := { user with
    appointment_date := some date,
    arrival_time := now,
    queue_entry_time := some now,
    visit_type := visitType,
    status := Status.waiting }
  let u2 := if visitType = VisitType.emergency
    then { u1 with priority_level := 5 } else u1
  let u3 := match preferredDoctorId with
    | some d => { u2 with preferred_doctor := some d }
    | none => u2
  { u3 with score := calculateScore now u3 }

/-- `bookAppointment`: refuse active patients; stamp arrival and
queue-entry times, visit type and waiting status (priority forced to 5
for emergencies); push the new entry onto the heap; then attempt the
preferred-doctor assignment or the emergency auto-assignment, both of
which swallow their own failures. -/
def bookAppointment (now : Q) (nowMin : Nat) (s : State) (uid : Nat)
    (date : Q) (visitType : VisitType) (preferredDoctorId : Option Nat) :
    OpResult UserR :=
  match findUser s uid with
  | none => (.error "User not found", s, [])
  | some user =>
    if user.status ≠ Status.inactive ∧ user.status ≠ Status.completed ∧
        user.status ≠ Status.cancelled then
      (.error "User already has an active booking or session", s, [])
    else
      let u4 := bookCore now user date visitType preferredDoctorId
      let s1 := saveUser s u4
      let s2 := heapPush s1 ⟨u4.id, u4.score⟩
      let tr0 : List IndexEv := [IndexEv.push ⟨u4.id, u4.score⟩]
      let doctorToAssign := match preferredDoctorId with
        | some d => some d
        | none => u4.preferred_doctor
      match doctorToAssign with
      | some d =>
        match assignDoctor now s2 uid d with
        | (Except.ok _, s3, tr1) => (bookFinish s3 uid, s3, tr0 ++ tr1)
        | (Except.error _, s3, tr1) =>
          if visitType = VisitType.emergency then
            match scheduleUser now nowMin s3 uid with
            | (_, s4, tr2) => (bookFinish s4 uid, s4, tr0 ++ tr1 ++ tr2)
          else
            (bookFinish s3 uid, s3, tr0 ++ tr1)
      | none =>
        if visitType = VisitType.emergency then
          match scheduleUser now nowMin s2 uid with
          | (_, s3, tr1) => (bookFinish s3 uid, s3, tr0 ++ tr1)
        else
          (bookFinish s2 uid, s2, tr0)

/-! ## Invariants -/

/-- Ids currently in the index, in entry order. -/
def heapIds (s : State) : List Nat := s.heap.map (fun e => e.user_id)

/-- Ids of all user documents, in collection order. -/
def userIds (s : State) : List Nat := s.users.map (fun u => u.id)

/-- Ids of active (waiting or scheduled) users, in collection order. -/
def activeIds (s : State) : List Nat :=
  (s.users.filter (fun u => isActiveStatus u.status)).map (fun u => u.id)

/-- The user collection has no duplicate ids. -/
def UsersNodup (s : State) : Prop := (userIds s).Nodup

/-- The staff collection has no duplicate ids. -/
def StaffsNodup (s : State) : Prop :=
  (s.staffs.map (fun st => st.id)).Nodup

/-- The Ordering-Index invariant: the heap holds exactly the active user
ids, without duplicates or omissions. -/
def HeapInv (s : State) : Prop :=
  (heapIds s).Nodup ∧ (heapIds s).Perm (activeIds s)

/-- The service time a queue id resolves to (0 for dangling ids). -/
def lookupEst (s : State) (uid : Nat) : Q :=
  match findUser s uid with
  | some u => u.estimated_service_time
  | none => Q.ofInt 0

/-- Sum of the service times referenced by a staff queue. -/
def qsum (s : State) (q : List Nat) : Q :=
  (q.map (lookupEst s)).foldl (fun a b => a + b) (Q.ofInt 0)

/-- The spec's §3 staff invariant: no duplicate queue entries, workload
equal to the queue's total service time, every queued patient existing,
assigned to this staff and in an active-ish status. -/
def StaffOk (s : State) (st : StaffR) : Prop :=
  st.queue.Nodup ∧ st.workload.veq (qsum s st.queue) ∧
  ∀ uid ∈ st.queue, ∃ u ∈ s.users, u.id = uid ∧
    u.assigned_staff_id = some st.id ∧ u.status ∈ activeStatuses

/-- Global data-model consistency (spec §3): unique ids, positive service
durations, and every staff record satisfying `StaffOk`. -/
def Consistent (s : State) : Prop :=
  UsersNodup s ∧ StaffsNodup s ∧
  (∀ u ∈ s.users, (Q.blt (Q.ofInt 0) u.estimated_service_time) = true) ∧
  ∀ st ∈ s.staffs, StaffOk s st

instance (s : State) : Decidable (UsersNodup s) := by
  unfold UsersNodup
  infer_instance

instance (s : State) : Decidable (StaffsNodup s) := by
  unfold StaffsNodup
  infer_instance

instance (s : State) : Decidable (HeapInv s) := by
  unfold HeapInv
  infer_instance

instance (s : State) (st : StaffR) : Decidable (StaffOk s st) := by
  unfold StaffOk
  infer_instance

instance (s : State) : Decidable (Consistent s) := by
  unfold Consistent
  infer_instance

/-! ## Example states used by witnesses and counterexamples -/

/-- Compact patient builder for concrete examples: a regular visit,
priority 3, 15-minute service estimate, arrival at epoch, stored
score 30. -/
def mkUser (i : Nat) (st : Status) (assigned : Option Nat) : UserR :=
  { id := i, visit_type := VisitType.regular, priority_level := 3,
    estimated_service_time := Q.ofInt 15, arrival_time := Q.ofInt 0,
    queue_entry_time := none, appointment_date := none,
    preferred_doctor := none, assigned_staff_id := assigned,
    status := st, score := Q.ofInt 30 }

/-- Compact staff builder: active, available the whole day. -/
def mkStaff (i : Nat) (q : List Nat) (w : Q) : StaffR :=
  { id := i, start_min := 0, end_min := 1439, queue := q, workload := w,
    active := true }

/-- Patient whose `arrival_time` lies in the future of the calculation
time 0 (arrival one minute after the epoch). -/
def c4User : UserR :=
  { mkUser 0 Status.waiting none with arrival_time := Q.ofInt 60000 }

/-- Patient record after an emergency override of a serving patient. -/
def c3User : UserR :=
  { mkUser 0 Status.serving none with priority_level := 5, visit_type := VisitType.emergency, score := Q.ofInt 9999 }

/-- State after `emergencyOverride` on a lone serving patient. -/
def c3State : State := State.mk [c3User] [] []

/-- An inactive patient and one idle all-day staff: booking with a
preferred doctor from here succeeds and immediately assigns. -/
def c6State : State :=
  State.mk [mkUser 0 Status.inactive none] [mkStaff 0 [] (Q.ofInt 0)] []

/-- The claim's wording of the assigned-staff wait: sum of
`estimated_service_time` (without the code's `|| 15` fallback) over the
queue entries preceding the patient.  Compared against the code's
`sumPreceding`. -/
def specPrecedingWait (s : State) (q : List Nat) (uid : Nat) : Q :=
  ((populateQueue s q).takeWhile (fun u => u.id ≠ uid)).foldl
    (fun acc u => acc + u.estimated_service_time) (Q.ofInt 0)

/-- Unassigned waiting patient who entered the queue at the epoch. -/
def c7User : UserR :=
  { mkUser 0 Status.waiting none with queue_entry_time := some (Q.ofInt 0) }

/-- `c7User` sits second in the heap behind a higher-scored patient. -/
def c7State : State :=
  State.mk [c7User, mkUser 1 Status.waiting none] []
    [HeapEntry.mk 0 (Q.ofInt 30), HeapEntry.mk 1 (Q.ofInt 50)]

/-- Consistent one-patient one-staff state: a waiting unassigned patient
and an idle all-day staff. -/
def c2State : State :=
  State.mk [mkUser 0 Status.waiting none] [mkStaff 0 [] (Q.ofInt 0)] []

/-- One scheduled patient assigned to one staff whose queue holds them. -/
def c10State : State :=
  State.mk [mkUser 0 Status.scheduled (some 0)]
    [mkStaff 0 [0] (Q.ofInt 15)] [HeapEntry.mk 0 (Q.ofInt 30)]

/-- The visit-type bonus exactly as the spec words it:
emergency +20, regular 0, follow-up -5. -/
def specVisitBonus (vt : VisitType) : ℚ :=
  match vt with
  | VisitType.emergency => 20
  | VisitType.regular => 0
  | VisitType.follow_up => -5

/-! ## Library of facts about the store -/

theorem find?_user_replace (l : List UserR) (u : UserR) (uid : Nat) :
    (l.map (fun v => if v.id = u.id then u else v)).find?
        (fun x => x.id = uid)
      = if uid = u.id
        then (l.find? (fun x => x.id = uid)).map (fun _ => u)
        else l.find? (fun x => x.id = uid) := by
  induction l with
  | nil => simp
  | cons v l ih =>
    rw [List.map_cons]
    by_cases hv : v.id = u.id
    · rw [if_pos hv]
      by_cases huid : uid = u.id
      · have h1 : decide (u.id = uid) = true := decide_eq_true (by omega)
        have h2 : decide (v.id = uid) = true := decide_eq_true (by omega)
        simp [List.find?_cons, h1, h2, huid, hv]
      · have h1 : decide (u.id = uid) = false := decide_eq_false (by omega)
        have h2 : decide (v.id = uid) = false := decide_eq_false (by omega)
        simp only [List.find?_cons, h1, h2]
        rw [ih]
    · rw [if_neg hv]
      by_cases hm : v.id = uid
      · have huid : ¬ uid = u.id := by omega
        have h2 : decide (v.id = uid) = true := decide_eq_true hm
        simp [List.find?_cons, h2, huid]
      · have h2 : decide (v.id = uid) = false := decide_eq_false hm
        simp only [List.find?_cons, h2]
        rw [ih]

theorem findUser_saveUser (s : State) (u : UserR) (uid : Nat) :
    findUser (saveUser s u) uid
      = if uid = u.id
        then (findUser s uid).map (fun _ => u)
        else findUser s uid :=
  find?_user_replace s.users u uid

theorem find?_staff_replace (l : List StaffR) (w : StaffR) (uid : Nat) :
    (l.map (fun v => if v.id = w.id then w else v)).find?
        (fun x => x.id = uid)
      = if uid = w.id
        then (l.find? (fun x => x.id = uid)).map (fun _ => w)
        else l.find? (fun x => x.id = uid) := by
  induction l with
  | nil => simp
  | cons v l ih =>
    rw [List.map_cons]
    by_cases hv : v.id = w.id
    · rw [if_pos hv]
      by_cases huid : uid = w.id
      · have h1 : decide (w.id = uid) = true := decide_eq_true (by omega)
        have h2 : decide (v.id = uid) = true := decide_eq_true (by omega)
        simp [List.find?_cons, h1, h2, huid, hv]
      · have h1 : decide (w.id = uid) = false := decide_eq_false (by omega)
        have h2 : decide (v.id = uid) = false := decide_eq_false (by omega)
        simp only [List.find?_cons, h1, h2]
        rw [ih]
    · rw [if_neg hv]
      by_cases hm : v.id = uid
      · have huid : ¬ uid = w.id := by omega
        have h2 : decide (v.id = uid) = true := decide_eq_true hm
        simp [List.find?_cons, h2, huid]
      · have h2 : decide (v.id = uid) = false := decide_eq_false hm
        simp only [List.find?_cons, h2]
        rw [ih]

theorem findStaff_saveStaff (s : State) (st : StaffR) (sid : Nat) :
    findStaff (saveStaff s st) sid
      = if sid = st.id
        then (findStaff s sid).map (fun _ => st)
        else findStaff s sid :=
  find?_staff_replace s.staffs st sid

theorem staffs_saveUser (s : State) (u : UserR) :
    (saveUser s u).staffs = s.staffs := rfl

theorem users_saveStaff (s : State) (st : StaffR) :
    (saveStaff s st).users = s.users := rfl

theorem heap_saveUser (s : State) (u : UserR) :
    (saveUser s u).heap = s.heap := rfl

theorem heap_saveStaff (s : State) (st : StaffR) :
    (saveStaff s st).heap = s.heap := rfl

theorem findUser_saveStaff (s : State) (st : StaffR) (uid : Nat) :
    findUser (saveStaff s st) uid = findUser s uid := rfl

theorem findStaff_saveUser (s : State) (u : UserR) (sid : Nat) :
    findStaff (saveUser s u) sid = findStaff s sid := rfl

theorem userIds_saveUser (s : State) (u : UserR) :
    userIds (saveUser s u) = userIds s := by
  unfold userIds saveUser
  simp only [List.map_map]
  refine List.map_congr_left ?_
  intro v _
  by_cases hv : v.id = u.id <;> simp [hv]

theorem usersNodup_saveUser {s : State} (u : UserR) (h : UsersNodup s) :
    UsersNodup (saveUser s u) := by
  unfold UsersNodup
  rw [userIds_saveUser]
  exact h

theorem staffIds_saveStaff (s : State) (st : StaffR) :
    (saveStaff s st).staffs.map (fun t => t.id) = s.staffs.map (fun t => t.id) := by
  unfold saveStaff
  simp only [List.map_map]
  refine List.map_congr_left ?_
  intro t _
  by_cases ht : t.id = st.id <;> simp [ht]

theorem staffsNodup_saveStaff {s : State} (st : StaffR) (h : StaffsNodup s) :
    StaffsNodup (saveStaff s st) := by
  unfold StaffsNodup
  rw [staffIds_saveStaff]
  exact h

theorem activeIds_nodup {s : State} (h : UsersNodup s) : (activeIds s).Nodup := by
  unfold activeIds
  unfold UsersNodup userIds at h
  have hsub : ((s.users.filter (fun u => isActiveStatus u.status)).map
      (fun u => u.id)).Sublist (s.users.map (fun u => u.id)) :=
    (List.filter_sublist s.users).map (fun u => u.id)
  exact h.sublist hsub

theorem heapIds_rebuild (s : State) : heapIds (rebuildHeap s) = activeIds s := by
  unfold heapIds rebuildHeap activeIds
  simp [List.map_map]

theorem users_rebuild (s : State) : (rebuildHeap s).users = s.users := rfl

theorem findUser_rebuild (s : State) (uid : Nat) :
    findUser (rebuildHeap s) uid = findUser s uid := rfl

theorem findStaff_rebuild (s : State) (sid : Nat) :
    findStaff (rebuildHeap s) sid = findStaff s sid := rfl

theorem staffs_rebuild (s : State) : (rebuildHeap s).staffs = s.staffs := rfl

theorem heapInv_rebuild {s : State} (h : UsersNodup s) :
    HeapInv (rebuildHeap s) := by
  constructor
  · rw [heapIds_rebuild]
    exact activeIds_nodup h
  · rw [heapIds_rebuild]
    have : activeIds (rebuildHeap s) = activeIds s := by
      unfold activeIds
      rw [users_rebuild]
    rw [this]

theorem findUser_mem {s : State} {uid : Nat} {u : UserR}
    (h : findUser s uid = some u) : u ∈ s.users ∧ u.id = uid := by
  unfold findUser at h
  refine ⟨List.mem_of_find?_eq_some h, ?_⟩
  have hp := List.find?_some h
  simpa using hp

theorem findStaff_mem {s : State} {sid : Nat} {st : StaffR}
    (h : findStaff s sid = some st) : st ∈ s.staffs ∧ st.id = sid := by
  unfold findStaff at h
  refine ⟨List.mem_of_find?_eq_some h, ?_⟩
  have hp := List.find?_some h
  simpa using hp

theorem mem_id_unique {s : State} (h : UsersNodup s) {u1 u2 : UserR}
    (h1 : u1 ∈ s.users) (h2 : u2 ∈ s.users) (hid : u1.id = u2.id) :
    u1 = u2 := by
  unfold UsersNodup userIds at h
  exact List.inj_on_of_nodup_map h h1 h2 hid

theorem staff_mem_id_unique {s : State} (h : StaffsNodup s) {t1 t2 : StaffR}
    (h1 : t1 ∈ s.staffs) (h2 : t2 ∈ s.staffs) (hid : t1.id = t2.id) :
    t1 = t2 := by
  unfold StaffsNodup at h
  exact List.inj_on_of_nodup_map h h1 h2 hid

theorem findUser_of_mem {s : State} (h : UsersNodup s) {u : UserR}
    (hm : u ∈ s.users) : findUser s u.id = some u := by
  cases hf : findUser s u.id with
  | none =>
    unfold findUser at hf
    have := List.find?_eq_none.mp hf u hm
    simp at this
  | some w =>
    obtain ⟨hwm, hwid⟩ := findUser_mem hf
    rw [mem_id_unique h hwm hm hwid]

theorem findStaff_of_mem {s : State} (h : StaffsNodup s) {st : StaffR}
    (hm : st ∈ s.staffs) : findStaff s st.id = some st := by
  cases hf : findStaff s st.id with
  | none =>
    unfold findStaff at hf
    have := List.find?_eq_none.mp hf st hm
    simp at this
  | some w =>
    obtain ⟨hwm, hwid⟩ := findStaff_mem hf
    rw [staff_mem_id_unique h hwm hm hwid]

theorem saveUser_self {s : State} (h : UsersNodup s) {u : UserR}
    (hm : u ∈ s.users) : saveUser s u = s := by
  unfold saveUser
  have hu : s.users.map (fun v => if v.id = u.id then u else v) = s.users := by
    conv_rhs => rw [← List.map_id s.users]
    refine List.map_congr_left ?_
    intro v hv
    by_cases hvid : v.id = u.id
    · rw [if_pos hvid, mem_id_unique h hm hv hvid.symm]
      rfl
    · rw [if_neg hvid]
      rfl
  rw [hu]

theorem saveStaff_self {s : State} (h : StaffsNodup s) {st : StaffR}
    (hm : st ∈ s.staffs) : saveStaff s st = s := by
  unfold saveStaff
  have hst : s.staffs.map (fun t => if t.id = st.id then st else t) = s.staffs := by
    conv_rhs => rw [← List.map_id s.staffs]
    refine List.map_congr_left ?_
    intro t ht
    by_cases htid : t.id = st.id
    · rw [if_pos htid, staff_mem_id_unique h hm ht htid.symm]
      rfl
    · rw [if_neg htid]
      rfl
  rw [hst]

/-! ## Library of facts about queue sums -/

theorem val_foldl_add (l : List Q) (q0 : Q) :
    (l.foldl (fun a b => a + b) q0).val = q0.val + (l.map Q.val).sum := by
  induction l generalizing q0 with
  | nil => simp
  | cons a l ih =>
    rw [List.foldl_cons, ih, List.map_cons, List.sum_cons, Q.val_add]
    ring

theorem qsum_val (s : State) (q : List Nat) :
    (qsum s q).val = ((q.map (lookupEst s)).map Q.val).sum := by
  unfold qsum
  rw [val_foldl_add, Q.val_zero, zero_add]

theorem qsum_cons (s : State) (a : Nat) (q : List Nat) :
    (qsum s (a :: q)).val = (lookupEst s a).val + (qsum s q).val := by
  rw [qsum_val, qsum_val, List.map_cons, List.map_cons, List.sum_cons]

theorem qsum_append_one (s : State) (q : List Nat) (a : Nat) :
    (qsum s (q ++ [a])).val = (qsum s q).val + (lookupEst s a).val := by
  rw [qsum_val, qsum_val]
  simp

theorem lookupEst_saveUser {s : State} {u v : UserR}
    (hv : findUser s u.id = some v)
    (hest : u.estimated_service_time = v.estimated_service_time) (x : Nat) :
    lookupEst (saveUser s u) x = lookupEst s x := by
  unfold lookupEst
  rw [findUser_saveUser]
  by_cases hx : x = u.id
  · rw [if_pos hx, hx, hv]
    simp [hest]
  · rw [if_neg hx]

theorem lookupEst_saveStaff (s : State) (st : StaffR) (x : Nat) :
    lookupEst (saveStaff s st) x = lookupEst s x := rfl

theorem qsum_congr {s s' : State} (h : ∀ x, lookupEst s' x = lookupEst s x)
    (q : List Nat) : qsum s' q = qsum s q := by
  unfold qsum
  rw [List.map_congr_left (fun x _ => h x)]

theorem qsum_filter_not_mem {q : List Nat} {uid : Nat}
    (h : uid ∉ q) : q.filter (fun i => i ≠ uid) = q := by
  refine List.filter_eq_self.mpr ?_
  intro a ha
  refine decide_eq_true ?_
  intro he
  exact h (he ▸ ha)

theorem qsum_nonneg {s : State} {q : List Nat}
    (h : ∀ x ∈ q, 0 ≤ (lookupEst s x).val) : 0 ≤ (qsum s q).val := by
  rw [qsum_val]
  refine List.sum_nonneg ?_
  intro a ha
  simp only [List.map_map, List.mem_map] at ha
  obtain ⟨x, hx, rfl⟩ := ha
  exact h x hx

theorem member_le_qsum {s : State} {q : List Nat} {uid : Nat}
    (hm : uid ∈ q) (h : ∀ x ∈ q, 0 ≤ (lookupEst s x).val) :
    (lookupEst s uid).val ≤ (qsum s q).val := by
  induction q with
  | nil => cases hm
  | cons a q ih =>
    rw [qsum_cons]
    rcases List.mem_cons.mp hm with rfl | hmem
    · have : 0 ≤ (qsum s q).val := qsum_nonneg (fun x hx => h x (List.mem_cons_of_mem _ hx))
      linarith
    · have h0 : 0 ≤ (lookupEst s a).val := h a (List.mem_cons_self a q)
      have := ih hmem (fun x hx => h x (List.mem_cons_of_mem _ hx))
      linarith

theorem qsum_filter {s : State} {q : List Nat} (hnd : q.Nodup) {uid : Nat}
    (hm : uid ∈ q) :
    (qsum s (q.filter (fun i => i ≠ uid))).val
      = (qsum s q).val - (lookupEst s uid).val := by
  induction q with
  | nil => cases hm
  | cons a q ih =>
    have hnd2 := List.nodup_cons.mp hnd
    rcases List.mem_cons.mp hm with he | hmem
    · subst he
      have hq : q.filter (fun i => i ≠ uid) = q := qsum_filter_not_mem hnd2.1
      rw [List.filter_cons_of_neg (by simp), hq, qsum_cons]
      ring
    · have ha : a ≠ uid := by
        intro he
        exact hnd2.1 (he ▸ hmem)
      rw [List.filter_cons_of_pos (by simpa using ha), qsum_cons, qsum_cons,
        ih hnd2.2 hmem]
      ring

/-! ## Library of facts about the stable sorts and the selection loop -/

theorem insertByScoreDesc_perm (e : HeapEntry) (l : List HeapEntry) :
    (insertByScoreDesc e l).Perm (e :: l) := by
  induction l with
  | nil => exact List.Perm.refl _
  | cons b t ih =>
    unfold insertByScoreDesc
    by_cases hb : b.score.ble e.score = true
    · rw [if_pos hb]
    · rw [if_neg hb]
      exact (ih.cons b).trans (List.Perm.swap e b t)

theorem sortByScoreDesc_perm (l : List HeapEntry) :
    (sortByScoreDesc l).Perm l := by
  induction l with
  | nil => exact List.Perm.refl _
  | cons e t ih =>
    unfold sortByScoreDesc
    exact (insertByScoreDesc_perm e _).trans (ih.cons e)

theorem sortByScoreDesc_head_max (l : List HeapEntry) :
    ∀ e t, sortByScoreDesc l = e :: t →
      ∀ x ∈ l, x.score.val ≤ e.score.val := by
  induction l with
  | nil => intro e t h; cases h
  | cons a l ih =>
    intro e t h x hx
    unfold sortByScoreDesc at h
    cases hs : sortByScoreDesc l with
    | nil =>
      rw [hs] at h
      unfold insertByScoreDesc at h
      cases h
      rcases List.mem_cons.mp hx with he | hxl
      · rw [he]
      · have hperm := sortByScoreDesc_perm l
        rw [hs] at hperm
        rw [List.perm_nil.mp hperm.symm] at hxl
        cases hxl
    | cons b t2 =>
      rw [hs] at h
      unfold insertByScoreDesc at h
      by_cases hb : b.score.ble a.score = true
      · rw [if_pos hb] at h
        injection h with h1 h2
        subst h1
        rcases List.mem_cons.mp hx with he | hxl
        · rw [he]
        · have hxb := ih b t2 hs x hxl
          have hba := (Q.ble_iff _ _).mp hb
          linarith
      · rw [if_neg hb] at h
        injection h with h1 h2
        rcases List.mem_cons.mp hx with he | hxl
        · have hab : a.score.val < b.score.val := by
            have := (Q.ble_iff b.score a.score).not.mp hb
            push_neg at this
            exact this
          rw [he, ← h1]
          exact hab.le
        · rw [← h1]
          exact ih b t2 hs x hxl

theorem insertByWorkload_perm (e : StaffR) (l : List StaffR) :
    (insertByWorkload e l).Perm (e :: l) := by
  induction l with
  | nil => exact List.Perm.refl _
  | cons b t ih =>
    unfold insertByWorkload
    by_cases hb : e.workload.ble b.workload = true
    · rw [if_pos hb]
    · rw [if_neg hb]
      exact (ih.cons b).trans (List.Perm.swap e b t)

theorem sortByWorkload_perm (l : List StaffR) :
    (sortByWorkload l).Perm l := by
  induction l with
  | nil => exact List.Perm.refl _
  | cons e t ih =>
    unfold sortByWorkload
    exact (insertByWorkload_perm e _).trans (ih.cons e)

theorem sortByWorkload_head_min (l : List StaffR) :
    ∀ e t, sortByWorkload l = e :: t →
      ∀ x ∈ l, e.workload.val ≤ x.workload.val := by
  induction l with
  | nil => intro e t h; cases h
  | cons a l ih =>
    intro e t h x hx
    unfold sortByWorkload at h
    cases hs : sortByWorkload l with
    | nil =>
      rw [hs] at h
      unfold insertByWorkload at h
      cases h
      rcases List.mem_cons.mp hx with he | hxl
      · rw [he]
      · have hperm := sortByWorkload_perm l
        rw [hs] at hperm
        rw [List.perm_nil.mp hperm.symm] at hxl
        cases hxl
    | cons b t2 =>
      rw [hs] at h
      unfold insertByWorkload at h
      by_cases hb : a.workload.ble b.workload = true
      · rw [if_pos hb] at h
        injection h with h1 h2
        subst h1
        rcases List.mem_cons.mp hx with he | hxl
        · rw [he]
        · have hxb := ih b t2 hs x hxl
          have hba := (Q.ble_iff _ _).mp hb
          linarith
      · rw [if_neg hb] at h
        injection h with h1 h2
        rcases List.mem_cons.mp hx with he | hxl
        · have hab : b.workload.val < a.workload.val := by
            have := (Q.ble_iff a.workload b.workload).not.mp hb
            push_neg at this
            exact this
          rw [he, ← h1]
          exact hab.le
        · rw [← h1]
          exact ih b t2 hs x hxl

/-- Availability window test of `_findBestStaff`. -/
def inWin (cur : Nat) (st : StaffR) : Prop :=
  st.start_min ≤ cur ∧ cur ≤ st.end_min

instance (cur : Nat) (st : StaffR) : Decidable (inWin cur st) := by
  unfold inWin
  infer_instance

theorem bestLoop_none {cur : Nat} {acc : Option StaffR} {a : StaffR}
    (h : bestLoop cur acc a = none) : acc = none ∧ ¬ inWin cur a := by
  cases acc with
  | none =>
    unfold bestLoop at h
    by_cases hw : a.start_min ≤ cur ∧ cur ≤ a.end_min
    · rw [if_pos hw] at h
      dsimp only at h
      cases h
    · exact ⟨rfl, hw⟩
  | some b =>
    unfold bestLoop at h
    dsimp only at h
    by_cases hw : a.start_min ≤ cur ∧ cur ≤ a.end_min
    · rw [if_pos hw] at h
      by_cases hl : a.workload.blt b.workload = true
      · rw [if_pos hl] at h
        cases h
      · rw [if_neg hl] at h
        cases h
    · rw [if_neg hw] at h
      cases h

theorem bestLoop_fold_none {cur : Nat} :
    ∀ (l : List StaffR) (acc : Option StaffR),
      l.foldl (bestLoop cur) acc = none →
        acc = none ∧ ∀ x ∈ l, ¬ inWin cur x := by
  intro l
  induction l with
  | nil =>
    intro acc h
    exact ⟨h, by intro x hx; cases hx⟩
  | cons a l ih =>
    intro acc h
    rw [List.foldl_cons] at h
    obtain ⟨hacc, hrest⟩ := ih _ h
    obtain ⟨h1, h2⟩ := bestLoop_none hacc
    refine ⟨h1, ?_⟩
    intro x hx
    rcases List.mem_cons.mp hx with he | hxl
    · rw [he]; exact h2
    · exact hrest x hxl

theorem bestLoop_some_le {cur : Nat} {acc : Option StaffR} {a b : StaffR}
    (h : bestLoop cur acc a = some b) (a0 : StaffR) (hacc : acc = some a0) :
    b.workload.val ≤ a0.workload.val := by
  subst hacc
  unfold bestLoop at h
  dsimp only at h
  by_cases hw : a.start_min ≤ cur ∧ cur ≤ a.end_min
  · rw [if_pos hw] at h
    by_cases hl : a.workload.blt a0.workload = true
    · rw [if_pos hl] at h
      injection h with h1
      subst h1
      exact ((Q.blt_iff _ _).mp hl).le
    · rw [if_neg hl] at h
      injection h with h1
      subst h1
      exact le_refl _
  · rw [if_neg hw] at h
    injection h with h1
    subst h1
    exact le_refl _

theorem bestLoop_fold_le {cur : Nat} :
    ∀ (l : List StaffR) (acc : Option StaffR) (b : StaffR),
      l.foldl (bestLoop cur) acc = some b →
        ∀ a0, acc = some a0 → b.workload.val ≤ a0.workload.val := by
  intro l
  induction l with
  | nil =>
    intro acc b h a0 hacc
    rw [List.foldl_nil] at h
    rw [hacc] at h
    injection h with h1
    subst h1
    exact le_refl _
  | cons a l ih =>
    intro acc b h a0 hacc
    rw [List.foldl_cons] at h
    cases hmid : bestLoop cur acc a with
    | none =>
      obtain ⟨h1, _⟩ := bestLoop_none hmid
      rw [h1] at hacc
      cases hacc
    | some c =>
      rw [hmid] at h
      have hbc := ih _ _ h c rfl
      have hca := bestLoop_some_le hmid a0 hacc
      linarith

theorem bestLoop_fold_mem {cur : Nat} :
    ∀ (l : List StaffR) (acc : Option StaffR) (b : StaffR),
      l.foldl (bestLoop cur) acc = some b →
        acc = some b ∨ (b ∈ l ∧ inWin cur b) := by
  intro l
  induction l with
  | nil =>
    intro acc b h
    rw [List.foldl_nil] at h
    exact Or.inl h
  | cons a l ih =>
    intro acc b h
    rw [List.foldl_cons] at h
    rcases ih _ _ h with hacc | ⟨hm, hw⟩
    · cases acc with
      | none =>
        unfold bestLoop at hacc
        by_cases hw : a.start_min ≤ cur ∧ cur ≤ a.end_min
        · rw [if_pos hw] at hacc
          dsimp only at hacc
          injection hacc with h1
          subst h1
          exact Or.inr ⟨List.mem_cons_self a l, hw⟩
        · rw [if_neg hw] at hacc
          cases hacc
      | some a0 =>
        unfold bestLoop at hacc
        dsimp only at hacc
        by_cases hw : a.start_min ≤ cur ∧ cur ≤ a.end_min
        · rw [if_pos hw] at hacc
          by_cases hl : a.workload.blt a0.workload = true
          · rw [if_pos hl] at hacc
            injection hacc with h1
            subst h1
            exact Or.inr ⟨List.mem_cons_self a l, hw⟩
          · rw [if_neg hl] at hacc
            exact Or.inl hacc
        · rw [if_neg hw] at hacc
          exact Or.inl hacc
    · exact Or.inr ⟨List.mem_cons_of_mem a hm, hw⟩

theorem bestLoop_fold_min {cur : Nat} :
    ∀ (l : List StaffR) (acc : Option StaffR) (b : StaffR),
      l.foldl (bestLoop cur) acc = some b →
        ∀ x ∈ l, inWin cur x → b.workload.val ≤ x.workload.val := by
  intro l
  induction l with
  | nil =>
    intro acc b _ x hx
    cases hx
  | cons a l ih =>
    intro acc b h x hx hwx
    rw [List.foldl_cons] at h
    rcases List.mem_cons.mp hx with he | hxl
    · subst he
      cases hmid : bestLoop cur acc x with
      | none =>
        obtain ⟨_, hc⟩ := bestLoop_none hmid
        exact absurd hwx hc
      | some c =>
        rw [hmid] at h
        have hbc := bestLoop_fold_le l _ b h c rfl
        have hcx : c.workload.val ≤ x.workload.val := by
          have hwx2 : x.start_min ≤ cur ∧ cur ≤ x.end_min := hwx
          cases acc with
          | none =>
            unfold bestLoop at hmid
            rw [if_pos hwx2] at hmid
            dsimp only at hmid
            injection hmid with h1
            subst h1
            exact le_refl _
          | some a0 =>
            unfold bestLoop at hmid
            dsimp only at hmid
            rw [if_pos hwx2] at hmid
            by_cases hl : x.workload.blt a0.workload = true
            · rw [if_pos hl] at hmid
              injection hmid with h1
              subst h1
              exact le_refl _
            · rw [if_neg hl] at hmid
              injection hmid with h1
              subst h1
              have := (Q.blt_iff x.workload a0.workload).not.mp hl
              push_neg at this
              exact this
        linarith
    · exact ih _ _ h x hxl hwx


/-! ## Score-calculator facts (claim C4) -/

theorem val_calculateScore (now : Q) (u : UserR)
    (hp0 : u.priority_level ≠ 0) :
    (calculateScore now u).val
      = 10 * (u.priority_level : ℚ)
        + 2 * ((now.val - u.arrival_time.val) / 60000)
        + specVisitBonus u.visit_type := by
  unfold calculateScore specVisitBonus
  cases hv : u.visit_type <;>
    simp only [hv, if_neg hp0] <;>
    simp only [Q.val_add, Q.val_sub, Q.val_mul, Q.val_divByNat,
      Q.val_ofInt, Q.val_neg] <;>
    push_cast <;>
    ring

/-- C4 (amended): for every patient with a priority in the schema range
1-5, the computed score equals
`10 * priority_level + 2 * wait_minutes + visit_bonus(visit_type)` with
`wait_minutes = (now - arrival_time) / 60000` **unclamped**: the code
never forces it to be nonnegative, and it is nonnegative exactly when
`now` is not before `arrival_time`.  The embedding is a pure function,
so there are no side effects. -/
theorem C4_score_formula (now : Q) (u : UserR)
    (hp1 : 1 ≤ u.priority_level) (hp5 : u.priority_level ≤ 5) :
    (calculateScore now u).val
      = 10 * (u.priority_level : ℚ)
        + 2 * ((now.val - u.arrival_time.val) / 60000)
        + specVisitBonus u.visit_type ∧
    (u.arrival_time.val ≤ now.val →
      0 ≤ (now.val - u.arrival_time.val) / 60000) := by
  constructor
  · exact val_calculateScore now u (by omega)
  · intro h
    exact div_nonneg (by linarith) (by norm_num)

theorem C4_score_formula_witness :
    (1 : Int) ≤ (mkUser 0 Status.waiting none).priority_level ∧
    (mkUser 0 Status.waiting none).priority_level ≤ 5 ∧
    ((calculateScore (Q.ofInt 60000) (mkUser 0 Status.waiting none)).val
        = 10 * ((mkUser 0 Status.waiting none).priority_level : ℚ)
          + 2 * (((Q.ofInt 60000).val
              - (mkUser 0 Status.waiting none).arrival_time.val) / 60000)
          + specVisitBonus (mkUser 0 Status.waiting none).visit_type ∧
      ((mkUser 0 Status.waiting none).arrival_time.val ≤ (Q.ofInt 60000).val →
        0 ≤ ((Q.ofInt 60000).val
            - (mkUser 0 Status.waiting none).arrival_time.val) / 60000)) :=
  ⟨by decide, by decide,
    C4_score_formula (Q.ofInt 60000) (mkUser 0 Status.waiting none)
      (by decide) (by decide)⟩

/-- C4 counterexample: with `arrival_time` one minute in the future of
the calculation time, the code's wait-minutes term is -1 (not ≥ 0 as the
claim states), and the computed score is 28, not the 30 that the claimed
nonnegative wait would give. -/
theorem C4_counterexample :
    (calculateScore (Q.ofInt 0) c4User).val = 28 ∧
    ((Q.ofInt 0).val - c4User.arrival_time.val) / 60000 = -1 ∧
    (10 * ((c4User.priority_level : Int) : ℚ)
        + 2 * max 0 (((Q.ofInt 0).val - c4User.arrival_time.val) / 60000)
        + specVisitBonus c4User.visit_type) = 30 ∧
    (28 : ℚ) ≠ 30 := by
  have h1 : calculateScore (Q.ofInt 0) c4User = ⟨1680000, 60000, by norm_num⟩ := by
    decide
  have hv : c4User.arrival_time.val = 60000 := by
    show (Q.ofInt 60000).val = _
    rw [Q.val_ofInt]
    norm_num
  refine ⟨?_, ?_, ?_, by norm_num⟩
  · rw [h1]
    unfold Q.val
    norm_num
  · rw [hv, Q.val_ofInt]
    norm_num
  · rw [hv, Q.val_ofInt]
    have hpl : c4User.priority_level = 3 := by decide
    rw [hpl]
    have hvt : c4User.visit_type = VisitType.regular := by decide
    rw [hvt]
    unfold specVisitBonus
    norm_num

/-! ## updatePriority facts (claim C9) -/

/-- C9: `updatePriority` rejects any priority outside 1-5 with a
synchronous validation error and a byte-for-byte unchanged state (the
patient record, its score and the index are untouched); for any value
inside 1-5 on an existing patient it succeeds, storing the new priority
and ending with a rebuild. -/
theorem C9_updatePriority (now : Q) (s : State) (uid : Nat) (p : Int) :
    ((p < 1 ∨ 5 < p) →
      updatePriority now s uid p
        = (Except.error "priority_level must be 1-5", s, [])) ∧
    (1 ≤ p → p ≤ 5 → ∀ u, findUser s uid = some u →
      ∃ u2, updatePriority now s uid p
          = (Except.ok u2, rebuildHeap (saveUser s u2), [IndexEv.rebuild]) ∧
        u2.priority_level = p ∧
        u2 = { u with priority_level := p, score := calculateScore now { u with priority_level := p } }) := by
  constructor
  · intro hp
    unfold updatePriority
    rw [if_pos hp]
  · intro h1 h5 u hu
    unfold updatePriority
    rw [if_neg (by omega), hu]
    exact ⟨_, rfl, rfl, rfl⟩

theorem C9_updatePriority_witness :
    ((7 : Int) < 1 ∨ 5 < (7 : Int)) ∧
    (updatePriority (Q.ofInt 0) (State.mk [mkUser 0 Status.waiting none] [] [])
        0 7
      = (Except.error "priority_level must be 1-5",
          State.mk [mkUser 0 Status.waiting none] [] [], [])) ∧
    (1 : Int) ≤ 2 ∧ (2 : Int) ≤ 5 ∧
    (∃ u2, updatePriority (Q.ofInt 0)
          (State.mk [mkUser 0 Status.waiting none] [] []) 0 2
        = (Except.ok u2,
            rebuildHeap (saveUser (State.mk [mkUser 0 Status.waiting none] [] []) u2),
            [IndexEv.rebuild]) ∧
      u2.priority_level = 2 ∧
      u2 = { mkUser 0 Status.waiting none with priority_level := 2, score := calculateScore (Q.ofInt 0) { mkUser 0 Status.waiting none with priority_level := 2 } }) :=
  ⟨by decide,
    (C9_updatePriority (Q.ofInt 0) (State.mk [mkUser 0 Status.waiting none] [] [])
        0 7).1 (by decide),
    by decide, by decide,
    (C9_updatePriority (Q.ofInt 0) (State.mk [mkUser 0 Status.waiting none] [] [])
        0 2).2 (by decide) (by decide) (mkUser 0 Status.waiting none) (by decide)⟩


/-! ## Staff-selector facts (claim C5) -/

/-- C5: `_findBestStaff` returns none exactly when there are zero active
staff; any returned staff is active; when some active staff is inside
its availability window (`start ≤ now ≤ end`) the result is in-window
with minimal workload among in-window active staff; when no active staff
is in-window the result has minimal workload among all active staff. -/
theorem C5_findBestStaff (s : State) (cur : Nat) :
    (findBestStaff s cur = none
      ↔ s.staffs.filter (fun st => st.active) = []) ∧
    (∀ b, findBestStaff s cur = some b →
      b.active = true ∧
      ((∃ x ∈ s.staffs.filter (fun st => st.active), inWin cur x) →
        inWin cur b ∧
        ∀ x ∈ s.staffs.filter (fun st => st.active), inWin cur x →
          b.workload.val ≤ x.workload.val) ∧
      ((∀ x ∈ s.staffs.filter (fun st => st.active), ¬ inWin cur x) →
        ∀ x ∈ s.staffs.filter (fun st => st.active),
          b.workload.val ≤ x.workload.val)) := by
  have hfb : findBestStaff s cur
      = (match (s.staffs.filter (fun st => st.active)).foldl (bestLoop cur) none with
        | some b => some b
        | none =>
          if (s.staffs.filter (fun st => st.active)).isEmpty then none
          else (sortByWorkload (s.staffs.filter (fun st => st.active))).head?) := rfl
  cases hf : (s.staffs.filter (fun st => st.active)).foldl (bestLoop cur) none with
  | some b0 =>
    rw [hf] at hfb
    constructor
    · constructor
      · intro h
        rw [h] at hfb
        cases hfb
      · intro h
        rw [h] at hf
        simp at hf
    · intro b hb
      rw [hfb] at hb
      injection hb with hb1
      subst hb1
      rcases bestLoop_fold_mem _ none _ hf with hacc | ⟨hm, hw⟩
      · cases hacc
      · refine ⟨(List.mem_filter.mp hm).2, ?_, ?_⟩
        · intro _
          exact ⟨hw, fun x hx hwx => bestLoop_fold_min _ none _ hf x hx hwx⟩
        · intro hnone _ _
          exact absurd hw (hnone _ hm)
  | none =>
    rw [hf] at hfb
    cases hA : s.staffs.filter (fun st => st.active) with
    | nil =>
      rw [hA] at hfb
      simp only [List.isEmpty_nil, if_true] at hfb
      refine ⟨⟨fun _ => rfl, fun _ => hfb⟩, ?_⟩
      intro b hb
      rw [hfb] at hb
      cases hb
    | cons a rest =>
      rw [hA] at hfb hf
      simp only [List.isEmpty_cons, Bool.false_eq_true, if_false] at hfb
      cases hsort : sortByWorkload (a :: rest) with
      | nil =>
        have hperm := sortByWorkload_perm (a :: rest)
        rw [hsort] at hperm
        exact absurd (List.perm_nil.mp hperm.symm) (List.cons_ne_nil a rest)
      | cons e t =>
        rw [hsort, List.head?_cons] at hfb
        constructor
        · constructor
          · intro h
            rw [h] at hfb
            cases hfb
          · intro h
            cases h
        · intro b hb
          rw [hfb] at hb
          injection hb with hb1
          subst hb1
          have hememsort : e ∈ sortByWorkload (a :: rest) := by
            rw [hsort]
            exact List.mem_cons_self e t
          have hmemA : e ∈ a :: rest :=
            (sortByWorkload_perm (a :: rest)).subset hememsort
          have hnowin := bestLoop_fold_none _ none hf
          refine ⟨?_, ?_, ?_⟩
          · have hmemF : e ∈ s.staffs.filter (fun st => st.active) := by
              rw [hA]
              exact hmemA
            exact (List.mem_filter.mp hmemF).2
          · intro hex
            obtain ⟨x, hx, hwx⟩ := hex
            exact absurd hwx (hnowin.2 x hx)
          · intro _ x hx
            exact sortByWorkload_head_min (a :: rest) e t hsort x hx

theorem C5_findBestStaff_witness :
    (findBestStaff (State.mk [] [mkStaff 0 [] (Q.ofInt 0)] []) 100 = none
      ↔ (State.mk [] [mkStaff 0 [] (Q.ofInt 0)] []).staffs.filter
          (fun st => st.active) = []) ∧
    (∀ b, findBestStaff (State.mk [] [mkStaff 0 [] (Q.ofInt 0)] []) 100 = some b →
      b.active = true ∧
      ((∃ x ∈ (State.mk [] [mkStaff 0 [] (Q.ofInt 0)] []).staffs.filter
            (fun st => st.active), inWin 100 x) →
        inWin 100 b ∧
        ∀ x ∈ (State.mk [] [mkStaff 0 [] (Q.ofInt 0)] []).staffs.filter
            (fun st => st.active), inWin 100 x →
          b.workload.val ≤ x.workload.val) ∧
      ((∀ x ∈ (State.mk [] [mkStaff 0 [] (Q.ofInt 0)] []).staffs.filter
            (fun st => st.active), ¬ inWin 100 x) →
        ∀ x ∈ (State.mk [] [mkStaff 0 [] (Q.ofInt 0)] []).staffs.filter
            (fun st => st.active),
          b.workload.val ≤ x.workload.val)) :=
  C5_findBestStaff (State.mk [] [mkStaff 0 [] (Q.ofInt 0)] []) 100


/-! ## Emergency-override facts (claim C3) -/

theorem scoreOr0_val_lt {q : Q} (h : q.val < 9999) :
    (scoreOr0 q).val < 9999 := by
  unfold scoreOr0
  by_cases h0 : q.num = 0
  · rw [if_pos h0, Q.val_zero]
    norm_num
  · rw [if_neg h0]
    exact h

theorem val_ofInt_9999 : (Q.ofInt 9999).val = 9999 := by
  rw [Q.val_ofInt]
  norm_num

/-- C3 (amended): `emergencyOverride` forces priority 5, emergency visit
type and the sentinel score 9999, leaving both the staff assignment and
the **status** unchanged (it does not transition the patient to waiting).
When the patient was already active (waiting or scheduled) and every
other active patient's stored score is below 9999, the observable
queue_position after the rebuild is #1. -/
theorem C3_emergencyOverride (now : Q) (s : State) (uid : Nat) (u : UserR)
    (hu : findUser s uid = some u) :
    ∃ u1, emergencyOverride s uid
        = (Except.ok u1, rebuildHeap (saveUser s u1), [IndexEv.rebuild]) ∧
      u1.priority_level = 5 ∧ u1.visit_type = VisitType.emergency ∧
      u1.score = Q.ofInt 9999 ∧
      u1.assigned_staff_id = u.assigned_staff_id ∧
      u1.status = u.status ∧
      (isActiveStatus u.status = true →
        (∀ v ∈ s.users, v.id ≠ uid → isActiveStatus v.status = true →
          v.score.val < 9999) →
        (∃ r, getUserStatus now (rebuildHeap (saveUser s u1)) uid = Except.ok r) ∧
        (∀ r, getUserStatus now (rebuildHeap (saveUser s u1)) uid = Except.ok r →
          r.queue_position = some 1)) := by
  have huid : u.id = uid := (findUser_mem hu).2
  have humem : u ∈ s.users := (findUser_mem hu).1
  refine ⟨{ u with priority_level := 5, visit_type := VisitType.emergency, score := Q.ofInt 9999 }, ?_, rfl, rfl, rfl, rfl, rfl, ?_⟩
  · unfold emergencyOverride
    rw [hu]
  · intro hact hsc
    set u1 : UserR := { u with priority_level := 5, visit_type := VisitType.emergency, score := Q.ofInt 9999 } with hu1
    set s2 : State := rebuildHeap (saveUser s u1) with hs2
    have hfind2 : findUser s2 uid = some u1 := by
      show findUser (rebuildHeap (saveUser s u1)) uid = some u1
      have : findUser (rebuildHeap (saveUser s u1)) uid
          = findUser (saveUser s u1) uid := rfl
      rw [this, findUser_saveUser]
      have h2 : uid = u1.id := by
        show uid = u.id
        rw [huid]
      rw [if_pos h2, hu]
      rfl
    -- the freshly rebuilt heap
    have hheap : s2.heap = ((saveUser s u1).users.filter
        (fun v => isActiveStatus v.status)).map
        (fun v => HeapEntry.mk v.id (scoreOr0 v.score)) := rfl
    -- our entry is in the heap
    have hmement : HeapEntry.mk uid (Q.ofInt 9999) ∈ s2.heap := by
      rw [hheap]
      refine List.mem_map.mpr ⟨u1, ?_, ?_⟩
      · refine List.mem_filter.mpr ⟨?_, ?_⟩
        · show u1 ∈ (saveUser s u1).users
          unfold saveUser
          refine List.mem_map.mpr ⟨u, humem, ?_⟩
          have : u.id = u1.id := rfl
          rw [if_pos this]
        · show isActiveStatus u1.status = true
          exact hact
      · show HeapEntry.mk u1.id (scoreOr0 u1.score) = HeapEntry.mk uid (Q.ofInt 9999)
        have h1 : u1.id = uid := huid
        have h2 : scoreOr0 u1.score = Q.ofInt 9999 := rfl
        rw [h1, h2]
    -- every other entry scores strictly below 9999
    have hother : ∀ x ∈ s2.heap, x.user_id ≠ uid → x.score.val < 9999 := by
      intro x hx hxid
      rw [hheap] at hx
      obtain ⟨v, hvf, hveq⟩ := List.mem_map.mp hx
      obtain ⟨hvm, hvact⟩ := List.mem_filter.mp hvf
      unfold saveUser at hvm
      obtain ⟨v0, hv0m, hv0eq⟩ := List.mem_map.mp hvm
      by_cases hid : v0.id = u1.id
      · rw [if_pos hid] at hv0eq
        rw [← hv0eq] at hveq
        rw [← hveq] at hxid
        exact absurd huid hxid
      · rw [if_neg hid] at hv0eq
        have hvid : v0.id ≠ uid := by
          intro he
          refine hid ?_
          show v0.id = u.id
          rw [he, huid]
        have hvact2 : isActiveStatus v0.status = true := by
          rw [hv0eq]
          exact hvact
        have hvsc := hsc v0 hv0m hvid hvact2
        have hxv : x = HeapEntry.mk v0.id (scoreOr0 v0.score) := by
          rw [hv0eq]
          exact hveq.symm
        rw [hxv]
        exact scoreOr0_val_lt hvsc
    -- the sorted heap starts with our entry
    cases hsort : sortByScoreDesc s2.heap with
    | nil =>
      have hperm := sortByScoreDesc_perm s2.heap
      rw [hsort] at hperm
      rw [List.perm_nil.mp hperm.symm] at hmement
      cases hmement
    | cons e t =>
      have hemem : e ∈ s2.heap := by
        refine (sortByScoreDesc_perm s2.heap).subset ?_
        rw [hsort]
        exact List.mem_cons_self e t
      have hetop := sortByScoreDesc_head_max s2.heap e t hsort
      have heid : e.user_id = uid := by
        by_contra hne
        have h1 := hother e hemem hne
        have h2 := hetop (HeapEntry.mk uid (Q.ofInt 9999)) hmement
        rw [show (HeapEntry.mk uid (Q.ofInt 9999)).score = Q.ofInt 9999 from rfl,
          val_ofInt_9999] at h2
        linarith
      -- getUserStatus reports position 1
      constructor
      · cases hg : getUserStatus now s2 uid with
        | ok r => exact ⟨r, rfl⟩
        | error m =>
          unfold getUserStatus at hg
          rw [hfind2] at hg
          dsimp only at hg
          cases hg
      · intro r hr
        unfold getUserStatus at hr
        rw [hfind2] at hr
        dsimp only at hr
        injection hr with h1
        rw [← h1]
        show posOpt (match (sortByScoreDesc s2.heap).findIdx?
            (fun x => x.user_id = uid) with
          | some i => i + 1
          | none => 0) = some 1
        rw [hsort]
        simp [List.findIdx?_cons, decide_eq_true heid, posOpt]


theorem C3_emergencyOverride_witness :
    findUser (State.mk [mkUser 0 Status.waiting none] [] []) 0
        = some (mkUser 0 Status.waiting none) ∧
    (∃ u1, emergencyOverride (State.mk [mkUser 0 Status.waiting none] [] []) 0
        = (Except.ok u1,
            rebuildHeap (saveUser (State.mk [mkUser 0 Status.waiting none] [] []) u1),
            [IndexEv.rebuild]) ∧
      u1.priority_level = 5 ∧ u1.visit_type = VisitType.emergency ∧
      u1.score = Q.ofInt 9999 ∧
      u1.assigned_staff_id = (mkUser 0 Status.waiting none).assigned_staff_id ∧
      u1.status = (mkUser 0 Status.waiting none).status ∧
      (isActiveStatus (mkUser 0 Status.waiting none).status = true →
        (∀ v ∈ (State.mk [mkUser 0 Status.waiting none] [] []).users,
          v.id ≠ 0 → isActiveStatus v.status = true → v.score.val < 9999) →
        (∃ r, getUserStatus (Q.ofInt 0)
            (rebuildHeap (saveUser (State.mk [mkUser 0 Status.waiting none] [] []) u1)) 0
          = Except.ok r) ∧
        (∀ r, getUserStatus (Q.ofInt 0)
            (rebuildHeap (saveUser (State.mk [mkUser 0 Status.waiting none] [] []) u1)) 0
          = Except.ok r → r.queue_position = some 1))) :=
  ⟨by decide,
    C3_emergencyOverride (Q.ofInt 0) (State.mk [mkUser 0 Status.waiting none] [] [])
      0 (mkUser 0 Status.waiting none) (by decide)⟩

/-- C3 counterexample: a patient in the non-terminal status `serving` is
overridden; the status stays `serving` (not `waiting` as claimed), the
patient is not in the rebuilt index, and the observable queue_position is
`none`, not #1. -/
theorem C3_counterexample :
    emergencyOverride (State.mk [mkUser 0 Status.serving none] [] []) 0
      = (Except.ok c3User, c3State, [IndexEv.rebuild]) ∧
    c3User.status = Status.serving ∧
    Status.serving ≠ Status.waiting ∧
    getUserStatus (Q.ofInt 0) c3State 0
      = Except.ok (StatusReport.mk c3User none (Q.ofInt 0)) ∧
    (none : Option Nat) ≠ some 1 := by
  refine ⟨by decide, by decide, by decide, by decide, by decide⟩


/-! ## Evaluation lemmas for the queue-removal helper -/

theorem remove_run_some {s : State} {user : UserR} {sid : Nat} {st : StaffR}
    (ha : user.assigned_staff_id = some sid)
    (hst : findStaff s sid = some st) :
    removeFromStaffQueue s user
      = (saveStaff s { st with queue := st.queue.filter (fun i => i ≠ user.id), workload := if 0 < st.queue.length - (st.queue.filter (fun i => i ≠ user.id)).length then (st.workload - estOr15 user.estimated_service_time).max0 else st.workload },
         { user with assigned_staff_id := none }) := by
  unfold removeFromStaffQueue
  rw [ha]
  dsimp only
  rw [hst]

theorem remove_run_noassign {s : State} {user : UserR}
    (ha : user.assigned_staff_id = none) :
    removeFromStaffQueue s user = (s, user) := by
  unfold removeFromStaffQueue
  rw [ha]

theorem remove_run_nostaff {s : State} {user : UserR} {sid : Nat}
    (ha : user.assigned_staff_id = some sid)
    (hst : findStaff s sid = none) :
    removeFromStaffQueue s user = (s, user) := by
  unfold removeFromStaffQueue
  rw [ha]
  dsimp only
  rw [hst]

/-! ## Frame-effect facts about terminal transitions (claim C10) -/

theorem remove_clears_queue {s : State} {user : UserR} {sid : Nat}
    {st : StaffR}
    (ha : user.assigned_staff_id = some sid)
    (hst : findStaff s sid = some st)
    (hsid : st.id = sid) :
    ∃ st1, findStaff (removeFromStaffQueue s user).1 sid = some st1 ∧
      user.id ∉ st1.queue := by
  rw [remove_run_some ha hst]
  dsimp only
  refine ⟨{ st with queue := st.queue.filter (fun i => i ≠ user.id), workload := if 0 < st.queue.length - (st.queue.filter (fun i => i ≠ user.id)).length then (st.workload - estOr15 user.estimated_service_time).max0 else st.workload }, ?_, ?_⟩
  · rw [findStaff_saveStaff]
    have h2 : sid = ({ st with queue := st.queue.filter (fun i => i ≠ user.id), workload := if 0 < st.queue.length - (st.queue.filter (fun i => i ≠ user.id)).length then (st.workload - estOr15 user.estimated_service_time).max0 else st.workload } : StaffR).id := by
      show sid = st.id
      omega
    rw [if_pos h2, hst]
    rfl
  · intro hmem
    have h3 := (List.mem_filter.mp hmem).2
    exact absurd rfl (of_decide_eq_true h3)

/-- C10: `markCompleted` (and `markNoShow`) save the terminal status
first and only then run the removal helper, which saves the staff but
clears `assigned_staff_id` on the in-memory object alone — so the
durable patient record still references the former staff while the
returned object does not, and the staff queue no longer contains the
patient.  `cancelUser` removes first and saves afterwards, so the
persisted record of a cancelled patient has `assigned_staff_id = none`. -/
theorem C10_terminal_persistence (s : State) (uid sid : Nat) (u : UserR)
    (st : StaffR)
    (hu : findUser s uid = some u)
    (hassigned : u.assigned_staff_id = some sid)
    (hst : findStaff s sid = some st) :
    (∃ u1 s1, markCompleted s uid = (Except.ok u1, s1, [IndexEv.rebuild]) ∧
      u1.assigned_staff_id = none ∧
      (∃ udb, findUser s1 uid = some udb ∧ udb.status = Status.completed ∧
        udb.assigned_staff_id = some sid) ∧
      (∃ st1, findStaff s1 sid = some st1 ∧ uid ∉ st1.queue)) ∧
    (∃ u1 s1, markNoShow s uid = (Except.ok u1, s1, [IndexEv.rebuild]) ∧
      u1.assigned_staff_id = none ∧
      (∃ udb, findUser s1 uid = some udb ∧ udb.status = Status.noShow ∧
        udb.assigned_staff_id = some sid) ∧
      (∃ st1, findStaff s1 sid = some st1 ∧ uid ∉ st1.queue)) ∧
    (∃ u2 s2, cancelUser s uid = (Except.ok u2, s2, [IndexEv.rebuild]) ∧
      (∃ udb, findUser s2 uid = some udb ∧ udb.status = Status.cancelled ∧
        udb.assigned_staff_id = none)) := by
  have huid : u.id = uid := (findUser_mem hu).2
  have hstid : st.id = sid := (findStaff_mem hst).2
  refine ⟨?_, ?_, ?_⟩
  · have hu1a : ({ u with status := Status.completed }).assigned_staff_id
        = some sid := hassigned
    have hfs1 : findStaff (saveUser s { u with status := Status.completed }) sid
        = some st := by
      rw [findStaff_saveUser]
      exact hst
    have hrm := remove_run_some hu1a hfs1
    have hrun : markCompleted s uid
        = (Except.ok
            (removeFromStaffQueue (saveUser s { u with status := Status.completed })
              { u with status := Status.completed }).2,
           rebuildHeap
            (removeFromStaffQueue (saveUser s { u with status := Status.completed })
              { u with status := Status.completed }).1,
           [IndexEv.rebuild]) := by
      unfold markCompleted
      rw [hu]
      dsimp only
      have hcond : u.assigned_staff_id.isSome = true := by
        rw [hassigned]
        rfl
      rw [if_pos hcond]
    refine ⟨_, _, hrun, ?_, ?_, ?_⟩
    · rw [hrm]
    · refine ⟨{ u with status := Status.completed }, ?_, rfl, hassigned⟩
      rw [findUser_rebuild, hrm]
      dsimp only
      rw [findUser_saveStaff, findUser_saveUser]
      have h2 : uid = ({ u with status := Status.completed }).id := by
        show uid = u.id
        omega
      rw [if_pos h2, hu]
      rfl
    · obtain ⟨st1, hf1, hnm⟩ := remove_clears_queue hu1a hfs1 hstid
      refine ⟨st1, ?_, ?_⟩
      · rw [findStaff_rebuild]
        exact hf1
      · intro hmem
        refine hnm ?_
        have h5 : ({ u with status := Status.completed }).id = uid := huid
        rw [h5]
        exact hmem
  · have hu1a : ({ u with status := Status.noShow }).assigned_staff_id
        = some sid := hassigned
    have hfs1 : findStaff (saveUser s { u with status := Status.noShow }) sid
        = some st := by
      rw [findStaff_saveUser]
      exact hst
    have hrm := remove_run_some hu1a hfs1
    have hrun : markNoShow s uid
        = (Except.ok
            (removeFromStaffQueue (saveUser s { u with status := Status.noShow })
              { u with status := Status.noShow }).2,
           rebuildHeap
            (removeFromStaffQueue (saveUser s { u with status := Status.noShow })
              { u with status := Status.noShow }).1,
           [IndexEv.rebuild]) := by
      unfold markNoShow
      rw [hu]
      dsimp only
      have hcond : u.assigned_staff_id.isSome = true := by
        rw [hassigned]
        rfl
      rw [if_pos hcond]
    refine ⟨_, _, hrun, ?_, ?_, ?_⟩
    · rw [hrm]
    · refine ⟨{ u with status := Status.noShow }, ?_, rfl, hassigned⟩
      rw [findUser_rebuild, hrm]
      dsimp only
      rw [findUser_saveStaff, findUser_saveUser]
      have h2 : uid = ({ u with status := Status.noShow }).id := by
        show uid = u.id
        omega
      rw [if_pos h2, hu]
      rfl
    · obtain ⟨st1, hf1, hnm⟩ := remove_clears_queue hu1a hfs1 hstid
      refine ⟨st1, ?_, ?_⟩
      · rw [findStaff_rebuild]
        exact hf1
      · intro hmem
        refine hnm ?_
        have h5 : ({ u with status := Status.noShow }).id = uid := huid
        rw [h5]
        exact hmem
  · have hrm := remove_run_some hassigned hst
    have hrun : cancelUser s uid
        = (Except.ok { (removeFromStaffQueue s u).2 with status := Status.cancelled },
           rebuildHeap (saveUser (removeFromStaffQueue s u).1
             { (removeFromStaffQueue s u).2 with status := Status.cancelled }),
           [IndexEv.rebuild]) := by
      unfold cancelUser
      rw [hu]
    refine ⟨_, _, hrun, ?_⟩
    refine ⟨{ (removeFromStaffQueue s u).2 with status := Status.cancelled }, ?_, rfl, ?_⟩
    · rw [findUser_rebuild, findUser_saveUser]
      have h2 : uid = ({ (removeFromStaffQueue s u).2 with status := Status.cancelled }).id := by
        rw [hrm]
        show uid = u.id
        omega
      rw [if_pos h2]
      rw [hrm]
      dsimp only
      rw [findUser_saveStaff, hu]
      rfl
    · rw [hrm]


theorem C10_terminal_persistence_witness :
    findUser c10State 0 = some (mkUser 0 Status.scheduled (some 0)) ∧
    (mkUser 0 Status.scheduled (some 0)).assigned_staff_id = some 0 ∧
    findStaff c10State 0 = some (mkStaff 0 [0] (Q.ofInt 15)) ∧
    ((∃ u1 s1, markCompleted c10State 0 = (Except.ok u1, s1, [IndexEv.rebuild]) ∧
      u1.assigned_staff_id = none ∧
      (∃ udb, findUser s1 0 = some udb ∧ udb.status = Status.completed ∧
        udb.assigned_staff_id = some 0) ∧
      (∃ st1, findStaff s1 0 = some st1 ∧ 0 ∉ st1.queue)) ∧
    (∃ u1 s1, markNoShow c10State 0 = (Except.ok u1, s1, [IndexEv.rebuild]) ∧
      u1.assigned_staff_id = none ∧
      (∃ udb, findUser s1 0 = some udb ∧ udb.status = Status.noShow ∧
        udb.assigned_staff_id = some 0) ∧
      (∃ st1, findStaff s1 0 = some st1 ∧ 0 ∉ st1.queue)) ∧
    (∃ u2 s2, cancelUser c10State 0 = (Except.ok u2, s2, [IndexEv.rebuild]) ∧
      (∃ udb, findUser s2 0 = some udb ∧ udb.status = Status.cancelled ∧
        udb.assigned_staff_id = none))) :=
  ⟨by decide, by decide, by decide,
    C10_terminal_persistence c10State 0 0 (mkUser 0 Status.scheduled (some 0))
      (mkStaff 0 [0] (Q.ofInt 15)) (by decide) (by decide) (by decide)⟩


/-! ## Idempotence of pool reassignment (claim C8) -/

theorem replace_collapse (l : List UserR) (u u' : UserR) (h : u.id = u'.id) :
    (l.map (fun v => if v.id = u.id then u else v)).map
        (fun v => if v.id = u'.id then u' else v)
      = l.map (fun v => if v.id = u'.id then u' else v) := by
  rw [List.map_map]
  refine List.map_congr_left ?_
  intro v _
  show (if (if v.id = u.id then u else v).id = u'.id then u'
    else (if v.id = u.id then u else v)) = _
  by_cases hv : v.id = u.id
  · rw [if_pos hv]
    have h1 : u.id = u'.id := h
    rw [if_pos h1, if_pos (hv.trans h)]
  · rw [if_neg hv]

theorem rebuild_congr {X Y : State} (hu : X.users = Y.users)
    (hst : X.staffs = Y.staffs) : rebuildHeap X = rebuildHeap Y := by
  unfold rebuildHeap
  rw [hu, hst]

theorem reassign_run_unassigned (now : Q) {s : State} {uid : Nat} {u : UserR}
    (hu : findUser s uid = some u) (ha : u.assigned_staff_id = none) :
    reassignUser now s uid
      = (Except.ok { u with status := Status.waiting, assigned_staff_id := none, score := calculateScore now { u with status := Status.waiting, assigned_staff_id := none } },
         rebuildHeap (saveUser s { u with status := Status.waiting, assigned_staff_id := none, score := calculateScore now { u with status := Status.waiting, assigned_staff_id := none } }),
         [IndexEv.rebuild]) := by
  unfold reassignUser
  rw [hu]
  dsimp only
  have hcond : ¬ (u.assigned_staff_id.isSome = true) := by
    rw [ha]
    simp
  rw [if_neg hcond]

theorem reassign_fixed (now : Q) {s : State} {uid : Nat} {u : UserR}
    (hu : findUser s uid = some u)
    (hw : u.status = Status.waiting)
    (ha : u.assigned_staff_id = none)
    (hsc : u.score = calculateScore now u) :
    reassignUser now s uid
      = (Except.ok u, rebuildHeap (saveUser s u), [IndexEv.rebuild]) := by
  have h := reassign_run_unassigned now hu ha
  have heq : ({ u with status := Status.waiting, assigned_staff_id := none, score := calculateScore now { u with status := Status.waiting, assigned_staff_id := none } }) = u := by
    obtain ⟨i, vt, pl, est, arr, qet, apd, pd, asg, stt, sc⟩ := u
    dsimp only at hw ha hsc ⊢
    subst hw
    subst ha
    rw [← hsc]
  rw [h, heq]

/-- C8: on a patient who is already waiting and unassigned,
`reassignUser` returns a waiting, unassigned record, and running it a
second time (at the same clock reading) returns the very same record and
the very same state — full idempotence — and the index built by the
rebuild contains no duplicate entry for the patient. -/
theorem C8_reassign_idempotent (now : Q) (s : State) (uid : Nat) (u : UserR)
    (hnd : UsersNodup s)
    (hu : findUser s uid = some u)
    (hw : u.status = Status.waiting)
    (ha : u.assigned_staff_id = none) :
    ∃ u1 s1, reassignUser now s uid = (Except.ok u1, s1, [IndexEv.rebuild]) ∧
      u1.status = Status.waiting ∧ u1.assigned_staff_id = none ∧
      reassignUser now s1 uid = (Except.ok u1, s1, [IndexEv.rebuild]) ∧
      (heapIds s1).Nodup := by
  have huid : u.id = uid := (findUser_mem hu).2
  have hrun1 := reassign_run_unassigned now hu ha
  refine ⟨_, _, hrun1, rfl, rfl, ?_, ?_⟩
  · have hu2 : findUser (rebuildHeap (saveUser s { u with status := Status.waiting, assigned_staff_id := none, score := calculateScore now { u with status := Status.waiting, assigned_staff_id := none } })) uid = some ({ u with status := Status.waiting, assigned_staff_id := none, score := calculateScore now { u with status := Status.waiting, assigned_staff_id := none } }) := by
      rw [findUser_rebuild, findUser_saveUser]
      have h2 : uid = ({ u with status := Status.waiting, assigned_staff_id := none, score := calculateScore now { u with status := Status.waiting, assigned_staff_id := none } }).id := by
        show uid = u.id
        omega
      rw [if_pos h2, hu]
      rfl
    have hrun2 := reassign_fixed now hu2 rfl rfl rfl
    rw [hrun2]
    have husers : (saveUser (rebuildHeap (saveUser s { u with status := Status.waiting, assigned_staff_id := none, score := calculateScore now { u with status := Status.waiting, assigned_staff_id := none } })) { u with status := Status.waiting, assigned_staff_id := none, score := calculateScore now { u with status := Status.waiting, assigned_staff_id := none } }).users
        = (saveUser s { u with status := Status.waiting, assigned_staff_id := none, score := calculateScore now { u with status := Status.waiting, assigned_staff_id := none } }).users :=
      replace_collapse s.users _ _ rfl
    have hstate := rebuild_congr husers rfl
    rw [hstate]
  · exact (heapInv_rebuild (usersNodup_saveUser _ hnd)).1

theorem C8_reassign_idempotent_witness :
    UsersNodup (State.mk [mkUser 0 Status.waiting none] [] [HeapEntry.mk 0 (Q.ofInt 30)]) ∧
    findUser (State.mk [mkUser 0 Status.waiting none] [] [HeapEntry.mk 0 (Q.ofInt 30)]) 0
      = some (mkUser 0 Status.waiting none) ∧
    (∃ u1 s1, reassignUser (Q.ofInt 0)
          (State.mk [mkUser 0 Status.waiting none] [] [HeapEntry.mk 0 (Q.ofInt 30)]) 0
        = (Except.ok u1, s1, [IndexEv.rebuild]) ∧
      u1.status = Status.waiting ∧ u1.assigned_staff_id = none ∧
      reassignUser (Q.ofInt 0) s1 0 = (Except.ok u1, s1, [IndexEv.rebuild]) ∧
      (heapIds s1).Nodup) :=
  ⟨by decide, by decide,
    C8_reassign_idempotent (Q.ofInt 0)
      (State.mk [mkUser 0 Status.waiting none] [] [HeapEntry.mk 0 (Q.ofInt 30)]) 0
      (mkUser 0 Status.waiting none) (by decide) (by decide) (by decide) (by decide)⟩


/-! ## Shape lemmas for the assignment operations -/

theorem remove_users (s : State) (w : UserR) :
    (removeFromStaffQueue s w).1.users = s.users := by
  unfold removeFromStaffQueue
  cases ha : w.assigned_staff_id with
  | none => rfl
  | some sid =>
    dsimp only
    cases hf : findStaff s sid with
    | none => rfl
    | some st => rfl

theorem remove_heap (s : State) (w : UserR) :
    (removeFromStaffQueue s w).1.heap = s.heap := by
  unfold removeFromStaffQueue
  cases ha : w.assigned_staff_id with
  | none => rfl
  | some sid =>
    dsimp only
    cases hf : findStaff s sid with
    | none => rfl
    | some st => rfl

theorem findUser_eq_of_users_eq {s s' : State} (h : s'.users = s.users)
    (uid : Nat) : findUser s' uid = findUser s uid := by
  unfold findUser
  rw [h]

theorem userIds_eq_of_users_eq {s s' : State} (h : s'.users = s.users) :
    userIds s' = userIds s := by
  unfold userIds
  rw [h]

theorem scheduleUser_shape (now : Q) (nowMin : Nat) (s : State) (uid : Nat)
    {w : UserR} (hw : findUser s uid = some w) :
    (∃ e, scheduleUser now nowMin s uid = (Except.error e, s, [])) ∨
    (∃ u2 st2 X, scheduleUser now nowMin s uid
        = (Except.ok (u2, st2), rebuildHeap X, [IndexEv.rebuild]) ∧
      userIds X = userIds s ∧
      findUser X uid = some u2 ∧
      u2.arrival_time = w.arrival_time ∧
      u2.queue_entry_time = w.queue_entry_time ∧
      u2.visit_type = w.visit_type ∧
      u2.priority_level = w.priority_level ∧
      u2.estimated_service_time = w.estimated_service_time ∧
      u2.status = Status.scheduled) := by
  have huid : w.id = uid := (findUser_mem hw).2
  unfold scheduleUser
  rw [hw]
  dsimp only
  by_cases hterm : w.status = Status.cancelled ∨ w.status = Status.noShow ∨
      w.status = Status.completed
  · rw [if_pos hterm]
    exact Or.inl ⟨_, rfl⟩
  · rw [if_neg hterm]
    cases hbest : findBestStaff s nowMin with
    | none => exact Or.inl ⟨_, rfl⟩
    | some staff =>
      refine Or.inr ⟨_, _, _, rfl, ?_, ?_, rfl, rfl, rfl, rfl, rfl, rfl⟩
      · rw [userIds_eq_of_users_eq (users_saveStaff _ _), userIds_saveUser]
      · rw [findUser_saveStaff, findUser_saveUser]
        have h2 : uid = ({ w with assigned_staff_id := some staff.id, status := Status.scheduled, score := calculateScore now { w with assigned_staff_id := some staff.id, status := Status.scheduled } }).id := by
          show uid = w.id
          omega
        rw [if_pos h2, hw]
        rfl

theorem assignDoctor_shape (now : Q) (s : State) (uid sid : Nat) {w : UserR}
    (hw : findUser s uid = some w) :
    (∃ e s1, assignDoctor now s uid sid = (Except.error e, s1, []) ∧
      s1.users = s.users ∧ s1.heap = s.heap) ∨
    (∃ u2 st2 X, assignDoctor now s uid sid
        = (Except.ok (u2, st2), rebuildHeap X, [IndexEv.rebuild]) ∧
      userIds X = userIds s ∧
      findUser X uid = some u2 ∧
      u2.arrival_time = w.arrival_time ∧
      u2.queue_entry_time = w.queue_entry_time ∧
      u2.visit_type = w.visit_type ∧
      u2.priority_level = w.priority_level ∧
      u2.estimated_service_time = w.estimated_service_time ∧
      u2.status = Status.scheduled) := by
  have huid : w.id = uid := (findUser_mem hw).2
  have hs1u : (removeFromStaffQueue s w).1.users = s.users := remove_users s w
  have hfind1 : findUser (removeFromStaffQueue s w).1 uid = some w := by
    rw [findUser_eq_of_users_eq hs1u]
    exact hw
  unfold assignDoctor
  rw [hw]
  dsimp only
  rw [hfind1]
  dsimp only
  cases hfst : findStaff (removeFromStaffQueue s w).1 sid with
  | none =>
    exact Or.inl ⟨_, _, rfl, hs1u, remove_heap s w⟩
  | some fst =>
    dsimp only
    refine Or.inr ⟨_, _, _, rfl, ?_, ?_, rfl, rfl, rfl, rfl, rfl, rfl⟩
    · by_cases halready : fst.queue.any (fun i => i = uid) = true
      · rw [if_pos halready]
        rw [userIds_saveUser, userIds_eq_of_users_eq hs1u]
      · rw [if_neg halready]
        rw [userIds_eq_of_users_eq (users_saveStaff _ _), userIds_saveUser,
          userIds_eq_of_users_eq hs1u]
    · have hkey : findUser (saveUser (removeFromStaffQueue s w).1 { w with assigned_staff_id := some fst.id, status := Status.scheduled, score := calculateScore now { w with assigned_staff_id := some fst.id, status := Status.scheduled } }) uid = some ({ w with assigned_staff_id := some fst.id, status := Status.scheduled, score := calculateScore now { w with assigned_staff_id := some fst.id, status := Status.scheduled } }) := by
        rw [findUser_saveUser]
        have h2 : uid = ({ w with assigned_staff_id := some fst.id, status := Status.scheduled, score := calculateScore now { w with assigned_staff_id := some fst.id, status := Status.scheduled } }).id := by
          show uid = w.id
          omega
        rw [if_pos h2, hfind1]
        rfl
      by_cases halready : fst.queue.any (fun i => i = uid) = true
      · rw [if_pos halready]
        exact hkey
      · rw [if_neg halready]
        rw [findUser_saveStaff]
        exact hkey


/-! ## Booking facts (claim C6) -/

theorem bookFinish_eq {s : State} {uid : Nat} {u : UserR}
    (h : findUser s uid = some u) : bookFinish s uid = Except.ok u := by
  unfold bookFinish
  rw [h]

theorem bookFinish_rebuild {X : State} {uid : Nat} {u : UserR}
    (h : findUser X uid = some u) :
    bookFinish (rebuildHeap X) uid = Except.ok u := by
  unfold bookFinish
  rw [findUser_rebuild, h]

theorem bookCore_fields (now : Q) (u : UserR) (date : Q) (vt : VisitType)
    (pref : Option Nat) :
    (bookCore now u date vt pref).id = u.id ∧
    (bookCore now u date vt pref).arrival_time = now ∧
    (bookCore now u date vt pref).queue_entry_time = some now ∧
    (bookCore now u date vt pref).visit_type = vt ∧
    (bookCore now u date vt pref).status = Status.waiting ∧
    (vt = VisitType.emergency →
      (bookCore now u date vt pref).priority_level = 5) := by
  unfold bookCore
  cases pref <;> by_cases hvt : vt = VisitType.emergency <;> simp [hvt]

theorem bookCore_pd_none (now : Q) (u : UserR) (date : Q) (vt : VisitType) :
    (bookCore now u date vt none).preferred_doctor = u.preferred_doctor := by
  unfold bookCore
  by_cases hvt : vt = VisitType.emergency <;> simp [hvt]

/-- C6 (amended): `bookAppointment` succeeds exactly when the patient's
status is inactive, completed or cancelled, and fails when the patient is
already active.  On success the persisted record has
`arrival_time = queue_entry_time = now` and the requested visit type,
priority forced to 5 for emergencies; the status is `waiting` or
`scheduled` — `waiting` only survives when no preferred doctor is
supplied or remembered and the visit is not an auto-assigned emergency;
a successful preferred-doctor assignment or emergency auto-assignment
inside the same call leaves the patient `scheduled`, not `waiting`. -/
theorem C6_bookAppointment (now : Q) (nowMin : Nat) (s : State) (uid : Nat)
    (date : Q) (vt : VisitType) (pref : Option Nat) (u : UserR)
    (hu : findUser s uid = some u) :
    ((∃ x, (bookAppointment now nowMin s uid date vt pref).1 = Except.ok x)
      ↔ (u.status = Status.inactive ∨ u.status = Status.completed ∨
        u.status = Status.cancelled)) ∧
    (∀ u2 s2 tr, bookAppointment now nowMin s uid date vt pref
        = (Except.ok u2, s2, tr) →
      u2.arrival_time = now ∧ u2.queue_entry_time = some now ∧
      u2.visit_type = vt ∧
      (vt = VisitType.emergency → u2.priority_level = 5) ∧
      (u2.status = Status.waiting ∨ u2.status = Status.scheduled) ∧
      (pref = none → u.preferred_doctor = none → vt ≠ VisitType.emergency →
        u2.status = Status.waiting)) := by
  have huid : u.id = uid := (findUser_mem hu).2
  by_cases hgate : (u.status ≠ Status.inactive ∧ u.status ≠ Status.completed ∧
      u.status ≠ Status.cancelled)
  · have hrun : bookAppointment now nowMin s uid date vt pref
        = (Except.error "User already has an active booking or session", s, []) := by
      unfold bookAppointment
      rw [hu]
      dsimp only
      rw [if_pos hgate]
    constructor
    · rw [hrun]
      constructor
      · rintro ⟨x, hx⟩
        cases hx
      · intro hstat
        exfalso
        rcases hstat with h | h | h
        · exact hgate.1 h
        · exact hgate.2.1 h
        · exact hgate.2.2 h
    · intro u2 s2 tr h
      rw [hrun] at h
      simp at h
  · have hstat : u.status = Status.inactive ∨ u.status = Status.completed ∨
        u.status = Status.cancelled := by
      by_contra hc
      push_neg at hc
      exact hgate ⟨hc.1, hc.2.1, hc.2.2⟩
    have hcore : ∀ u4 : UserR, u4.id = u.id →
        findUser (heapPush (saveUser s u4) (HeapEntry.mk u4.id u4.score)) uid
          = some u4 := by
      intro u4 h4
      show findUser (saveUser s u4) uid = some u4
      rw [findUser_saveUser]
      have h2 : uid = u4.id := by omega
      rw [if_pos h2, hu]
      rfl
    have hmain : ∃ x s2 tr,
        bookAppointment now nowMin s uid date vt pref = (Except.ok x, s2, tr) ∧
        (x.arrival_time = now ∧ x.queue_entry_time = some now ∧
          x.visit_type = vt ∧
          (vt = VisitType.emergency → x.priority_level = 5) ∧
          (x.status = Status.waiting ∨ x.status = Status.scheduled) ∧
          (pref = none → u.preferred_doctor = none →
            vt ≠ VisitType.emergency → x.status = Status.waiting)) := by
      unfold bookAppointment
      rw [hu]
      dsimp only
      rw [if_neg hgate]
      cases hpref : pref with
      | some d =>
        dsimp only
        obtain ⟨hBid, hBarr, hBqet, hBvt, hBst, hBpl⟩ :=
          bookCore_fields now u date vt (some d)
        have hfind2 := hcore _ hBid
        rcases assignDoctor_shape now _ uid d hfind2 with
          ⟨e, s1, heq, hus, hhp⟩ |
          ⟨u2x, st2x, X, heq, hids, hfX, ha1, ha2, ha3, ha4, ha5, ha6⟩
        · rw [heq]
          dsimp only
          have hfs1 := (findUser_eq_of_users_eq hus uid).trans hfind2
          by_cases hvt : vt = VisitType.emergency
          · rw [if_pos hvt]
            rcases scheduleUser_shape now nowMin s1 uid hfs1 with
              ⟨e2, heq2⟩ |
              ⟨u2y, st2y, Y, heq2, hidsY, hfY, hb1, hb2, hb3, hb4, hb5, hb6⟩
            · rw [heq2]
              dsimp only
              rw [bookFinish_eq hfs1]
              exact ⟨_, _, _, rfl, hBarr, hBqet, hBvt, hBpl, Or.inl hBst,
                fun hn => nomatch hn⟩
            · rw [heq2]
              dsimp only
              rw [bookFinish_rebuild hfY]
              exact ⟨_, _, _, rfl, hb1.trans hBarr, hb2.trans hBqet,
                hb3.trans hBvt, fun he => hb4.trans (hBpl he), Or.inr hb6,
                fun hn => nomatch hn⟩
          · rw [if_neg hvt]
            rw [bookFinish_eq hfs1]
            exact ⟨_, _, _, rfl, hBarr, hBqet, hBvt, hBpl, Or.inl hBst,
              fun hn => nomatch hn⟩
        · rw [heq]
          dsimp only
          rw [bookFinish_rebuild hfX]
          exact ⟨_, _, _, rfl, ha1.trans hBarr, ha2.trans hBqet,
            ha3.trans hBvt, fun he => ha4.trans (hBpl he), Or.inr ha6,
            fun hn => nomatch hn⟩
      | none =>
        dsimp only
        obtain ⟨hBid, hBarr, hBqet, hBvt, hBst, hBpl⟩ :=
          bookCore_fields now u date vt none
        have hfind2 := hcore _ hBid
        rw [bookCore_pd_none]
        cases hpd : u.preferred_doctor with
        | some d =>
          dsimp only
          rcases assignDoctor_shape now _ uid d hfind2 with
            ⟨e, s1, heq, hus, hhp⟩ |
            ⟨u2x, st2x, X, heq, hids, hfX, ha1, ha2, ha3, ha4, ha5, ha6⟩
          · rw [heq]
            dsimp only
            have hfs1 := (findUser_eq_of_users_eq hus uid).trans hfind2
            by_cases hvt : vt = VisitType.emergency
            · rw [if_pos hvt]
              rcases scheduleUser_shape now nowMin s1 uid hfs1 with
                ⟨e2, heq2⟩ |
                ⟨u2y, st2y, Y, heq2, hidsY, hfY, hb1, hb2, hb3, hb4, hb5, hb6⟩
              · rw [heq2]
                dsimp only
                rw [bookFinish_eq hfs1]
                exact ⟨_, _, _, rfl, hBarr, hBqet, hBvt, hBpl, Or.inl hBst,
                  fun _ hn => nomatch hn⟩
              · rw [heq2]
                dsimp only
                rw [bookFinish_rebuild hfY]
                exact ⟨_, _, _, rfl, hb1.trans hBarr, hb2.trans hBqet,
                  hb3.trans hBvt, fun he => hb4.trans (hBpl he), Or.inr hb6,
                  fun _ hn => nomatch hn⟩
            · rw [if_neg hvt]
              rw [bookFinish_eq hfs1]
              exact ⟨_, _, _, rfl, hBarr, hBqet, hBvt, hBpl, Or.inl hBst,
                fun _ hn => nomatch hn⟩
          · rw [heq]
            dsimp only
            rw [bookFinish_rebuild hfX]
            exact ⟨_, _, _, rfl, ha1.trans hBarr, ha2.trans hBqet,
              ha3.trans hBvt, fun he => ha4.trans (hBpl he), Or.inr ha6,
              fun _ hn => nomatch hn⟩
        | none =>
          dsimp only
          by_cases hvt : vt = VisitType.emergency
          · rw [if_pos hvt]
            rcases scheduleUser_shape now nowMin _ uid hfind2 with
              ⟨e2, heq2⟩ |
              ⟨u2y, st2y, Y, heq2, hidsY, hfY, hb1, hb2, hb3, hb4, hb5, hb6⟩
            · rw [heq2]
              dsimp only
              rw [bookFinish_eq hfind2]
              exact ⟨_, _, _, rfl, hBarr, hBqet, hBvt, hBpl, Or.inl hBst,
                fun _ _ hv => absurd hvt hv⟩
            · rw [heq2]
              dsimp only
              rw [bookFinish_rebuild hfY]
              exact ⟨_, _, _, rfl, hb1.trans hBarr, hb2.trans hBqet,
                hb3.trans hBvt, fun he => hb4.trans (hBpl he), Or.inr hb6,
                fun _ _ hv => absurd hvt hv⟩
          · rw [if_neg hvt]
            rw [bookFinish_eq hfind2]
            exact ⟨_, _, _, rfl, hBarr, hBqet, hBvt, hBpl, Or.inl hBst,
              fun _ _ _ => hBst⟩
    refine ⟨⟨fun _ => hstat, fun _ => ?_⟩, ?_⟩
    · obtain ⟨x, s2, tr, heq, _⟩ := hmain
      exact ⟨x, by rw [heq]⟩
    · intro u2 s2 tr h
      obtain ⟨x, s2x, trx, heq, heff⟩ := hmain
      rw [heq] at h
      injection h with h1 h2
      injection h2 with h2 h3
      injection h1 with h1
      rw [← h1]
      exact heff

theorem C6_bookAppointment_witness :
    ∃ x, (bookAppointment (Q.ofInt 0) 600 c6State 0 (Q.ofInt 0)
      VisitType.regular none).1 = Except.ok x :=
  ((C6_bookAppointment (Q.ofInt 0) 600 c6State 0 (Q.ofInt 0)
      VisitType.regular none (mkUser 0 Status.inactive none) rfl).1).mpr
    (Or.inl rfl)

/-- C6 counterexample: the claim says a successful booking leaves the
patient with status `waiting`, but booking an inactive patient with a
preferred doctor returns the patient already `scheduled`. -/
theorem C6_counterexample :
    ((bookAppointment (Q.ofInt 0) 600 c6State 0 (Q.ofInt 0)
        VisitType.regular (some 0)).1.map (fun x => x.status))
      = Except.ok Status.scheduled ∧
    Status.scheduled ≠ Status.waiting := by
  constructor
  · rfl
  · decide


/-! ## Status-report facts (claim C7) -/

theorem findIdx?_none_of_all {α : Type} (p : α → Bool) (l : List α)
    (h : ∀ x ∈ l, p x = false) : ∀ i, l.findIdx? p i = none := by
  induction l with
  | nil =>
    intro i
    rfl
  | cons x xs ih =>
    intro i
    simp only [List.findIdx?]
    rw [h x (by simp)]
    simp only [Bool.false_eq_true, if_false]
    exact ih (fun v hv => h v (by simp [hv])) (i + 1)

theorem foldl_est_congr (l : List UserR)
    (h : ∀ v ∈ l, estOr15 v.estimated_service_time = v.estimated_service_time) :
    ∀ a : Q, l.foldl (fun acc v => acc + estOr15 v.estimated_service_time) a
      = l.foldl (fun acc v => acc + v.estimated_service_time) a := by
  induction l with
  | nil =>
    intro a
    rfl
  | cons x xs ih =>
    intro a
    dsimp only [List.foldl]
    rw [h x (by simp)]
    exact ih (fun v hv => h v (by simp [hv])) _

theorem sumPreceding_eq_spec (s : State) (q : List Nat) (uid : Nat)
    (hpos : ∀ v ∈ s.users, Q.blt (Q.ofInt 0) v.estimated_service_time = true) :
    sumPreceding s q uid = specPrecedingWait s q uid := by
  unfold sumPreceding specPrecedingWait
  apply foldl_est_congr
  intro v hv
  have hv2 : v ∈ populateQueue s q := (List.takeWhile_sublist _).subset hv
  have hvu : v ∈ s.users := by
    unfold populateQueue at hv2
    obtain ⟨i, _, hfi⟩ := List.mem_filterMap.mp hv2
    exact (findUser_mem hfi).1
  have hb := (Q.blt_iff _ _).mp (hpos v hvu)
  rw [Q.val_ofInt] at hb
  have hne : v.estimated_service_time.num ≠ 0 := by
    intro h0
    rw [Q.num_zero_iff] at h0
    rw [h0] at hb
    exact lt_irrefl _ (by exact_mod_cast hb)
  unfold estOr15
  rw [if_neg hne]

theorem heapPosition_zero {s : State} {uid : Nat} {u : UserR}
    (hn : UsersNodup s) (hinv : HeapInv s) (hu : findUser s uid = some u)
    (hna : isActiveStatus u.status = false) : heapPosition s uid = 0 := by
  have hmem : uid ∉ heapIds s := by
    intro hmem
    have hact : uid ∈ activeIds s := hinv.2.mem_iff.mp hmem
    unfold activeIds at hact
    obtain ⟨v, hv, hvid⟩ := List.mem_map.mp hact
    obtain ⟨hvmem, hvact⟩ := List.mem_filter.mp hv
    have hveq : v = u :=
      mem_id_unique hn hvmem (findUser_mem hu).1
        (hvid.trans (findUser_mem hu).2.symm)
    rw [hveq] at hvact
    simp [hna] at hvact
  unfold heapPosition
  rw [findIdx?_none_of_all _ _ ?hall 0]
  case hall =>
    intro e he
    have hh : e ∈ s.heap := (sortByScoreDesc_perm s.heap).mem_iff.mp he
    have : e.user_id ≠ uid := by
      intro hid
      exact hmem (hid ▸ List.mem_map_of_mem _ hh)
    simp [this]

/-- C7 (amended): for a patient in status waiting or scheduled,
getUserStatus reports, when a staff is assigned whose queue contains the
patient (and all stored service estimates are positive, so the code's
`|| 15` fallback is inert), the sum of estimated_service_time over the
queue entries preceding the patient (0 if first); when unassigned,
max(0, round((queue_position - 1) x 15 - minutes_already_in_queue)) —
the code rounds to the nearest integer minute before clamping; for any
other status it reports wait = 0, and queue_position = none whenever the
user ids are unique and the index invariant holds. -/
theorem C7_getUserStatus (now : Q) (s : State) (uid : Nat) (u : UserR)
    (hu : findUser s uid = some u) :
    ∃ rep, getUserStatus now s uid = Except.ok rep ∧
      rep.user = u ∧
      rep.queue_position = posOpt (heapPosition s uid) ∧
      (∀ stId staff,
        (u.status = Status.waiting ∨ u.status = Status.scheduled) →
        u.assigned_staff_id = some stId → findStaff s stId = some staff →
        uid ∈ staff.queue →
        (∀ v ∈ s.users, Q.blt (Q.ofInt 0) v.estimated_service_time = true) →
        rep.estimated_wait_minutes = specPrecedingWait s staff.queue uid) ∧
      (∀ t, (u.status = Status.waiting ∨ u.status = Status.scheduled) →
        u.assigned_staff_id = none → u.queue_entry_time = some t →
        rep.estimated_wait_minutes.val
          = max 0 ((round ((((heapPosition s uid - 1 : Nat) : ℚ) * 15)
              - (now.val - t.val) / 60000) : ℤ) : ℚ)) ∧
      (¬(u.status = Status.waiting ∨ u.status = Status.scheduled) →
        (rep.estimated_wait_minutes = Q.ofInt 0 ∧
          (UsersNodup s → HeapInv s → rep.queue_position = none))) := by
  unfold getUserStatus
  rw [hu]
  dsimp only
  refine ⟨_, rfl, rfl, rfl, ?_, ?_, ?_⟩
  · intro stId staff hact hassigned hstaff hmemq hpos
    have hactb : isActiveStatus u.status = true := by
      rcases hact with h | h <;> simp [isActiveStatus, h]
    dsimp only
    rw [if_pos hactb, hassigned]
    dsimp only
    rw [hstaff]
    dsimp only
    have hqne : ¬ staff.queue.isEmpty = true := by
      intro hq
      rw [List.isEmpty_iff] at hq
      rw [hq] at hmemq
      cases hmemq
    rw [if_neg hqne]
    exact sumPreceding_eq_spec s staff.queue uid hpos
  · intro t hact hassigned hqet
    have hactb : isActiveStatus u.status = true := by
      rcases hact with h | h <;> simp [isActiveStatus, h]
    dsimp only
    rw [if_pos hactb, hassigned]
    dsimp only
    rw [hqet]
    dsimp only
    have hq : ∀ h : (0 : Nat) < 60000,
        (Q.ofInt (((heapPosition s uid - 1 : Nat) : Int) * 15)
            - (now - t).divByNat 60000 h).val
          = (((heapPosition s uid - 1 : Nat) : ℚ) * 15)
            - (now.val - t.val) / 60000 := by
      intro h
      rw [Q.val_sub, Q.val_ofInt, Q.val_divByNat, Q.val_sub]
      push_cast
      ring
    rw [Q.val_max0, Q.val_ofInt, Q.jsRound_eq_floor, hq, ← round_eq]
  · intro hna
    have hfb : isActiveStatus u.status = false := by
      unfold isActiveStatus
      simp only [Bool.or_eq_false_iff, decide_eq_false_iff_not]
      exact ⟨fun h => hna (Or.inl h), fun h => hna (Or.inr h)⟩
    have hnt : ¬ isActiveStatus u.status = true := by
      rw [hfb]
      simp
    constructor
    · dsimp only
      rw [if_neg hnt]
    · intro hn hinv
      dsimp only
      rw [heapPosition_zero hn hinv hu hfb]
      rfl

theorem C7_getUserStatus_witness :
    findUser c7State 0 = some c7User ∧
    ∃ rep, getUserStatus (Q.ofInt 24000) c7State 0 = Except.ok rep :=
  ⟨rfl, (C7_getUserStatus (Q.ofInt 24000) c7State 0 c7User rfl).elim
    (fun rep h => ⟨rep, h.1⟩)⟩

/-- C7 counterexample: the unassigned patient second in the heap who
queued 24000 ms before the call is reported a wait of 15 minutes (the
code rounds 14.6 up before clamping), while the claim's formula
max(0, (2 - 1) x 15 - 0.4) yields 14.6. -/
theorem C7_counterexample :
    (getUserStatus (Q.ofInt 24000) c7State 0).map
        (fun r => r.estimated_wait_minutes) = Except.ok (Q.ofInt 15) ∧
    (Q.ofInt 15).val ≠ max 0 ((1 * 15 : ℚ) - (24000 - 0) / 60000) := by
  constructor
  · rfl
  · rw [Q.val_ofInt]
    have h1 : ((1 * 15 : ℚ) - (24000 - 0) / 60000) = 73 / 5 := by norm_num
    rw [h1, max_eq_right (by norm_num : (0 : ℚ) ≤ 73 / 5)]
    norm_num


/-! ## Staff-queue invariant machinery (claim C2) -/

theorem users_saveUser_mem {s : State} {u v : UserR}
    (h : v ∈ (saveUser s u).users) : v = u ∨ (v ∈ s.users ∧ v.id ≠ u.id) := by
  unfold saveUser at h
  dsimp only at h
  obtain ⟨w, hw, hfw⟩ := List.mem_map.mp h
  by_cases hid : w.id = u.id
  · rw [if_pos hid] at hfw
    exact Or.inl hfw.symm
  · rw [if_neg hid] at hfw
    subst hfw
    exact Or.inr ⟨hw, hid⟩

theorem mem_saveUser_of_ne {s : State} {u v : UserR}
    (hv : v ∈ s.users) (hne : v.id ≠ u.id) : v ∈ (saveUser s u).users := by
  unfold saveUser
  dsimp only
  refine List.mem_map.mpr ⟨v, hv, ?_⟩
  rw [if_neg hne]

theorem staffs_saveStaff_mem {s : State} {st t : StaffR}
    (h : t ∈ (saveStaff s st).staffs) :
    t = st ∨ (t ∈ s.staffs ∧ t.id ≠ st.id) := by
  unfold saveStaff at h
  dsimp only at h
  obtain ⟨w, hw, hfw⟩ := List.mem_map.mp h
  by_cases hid : w.id = st.id
  · rw [if_pos hid] at hfw
    exact Or.inl hfw.symm
  · rw [if_neg hid] at hfw
    subst hfw
    exact Or.inr ⟨hw, hid⟩

theorem mem_saveStaff_of_ne {s : State} {st t : StaffR}
    (ht : t ∈ s.staffs) (hne : t.id ≠ st.id) : t ∈ (saveStaff s st).staffs := by
  unfold saveStaff
  dsimp only
  refine List.mem_map.mpr ⟨t, ht, ?_⟩
  rw [if_neg hne]

theorem estOr15_of_pos {e : Q} (h : Q.blt (Q.ofInt 0) e = true) :
    estOr15 e = e := by
  have hb := (Q.blt_iff _ _).mp h
  rw [Q.val_ofInt] at hb
  have hne : e.num ≠ 0 := by
    intro h0
    rw [Q.num_zero_iff] at h0
    rw [h0] at hb
    exact lt_irrefl _ (by exact_mod_cast hb)
  unfold estOr15
  rw [if_neg hne]

theorem lookupEst_eq {s : State} {uid : Nat} {u : UserR}
    (h : findUser s uid = some u) :
    lookupEst s uid = u.estimated_service_time := by
  unfold lookupEst
  rw [h]

theorem queue_only_assigned {s : State} {uid : Nat} {u : UserR}
    (hc : Consistent s) (hu : findUser s uid = some u)
    {st : StaffR} (hst : st ∈ s.staffs) (hmem : uid ∈ st.queue) :
    u.assigned_staff_id = some st.id ∧ u.status ∈ activeStatuses := by
  obtain ⟨v, hv, hvid, hva, hvs⟩ := (hc.2.2.2 st hst).2.2 uid hmem
  have hveq : v = u :=
    mem_id_unique hc.1 hv (findUser_mem hu).1
      (hvid.trans (findUser_mem hu).2.symm)
  rw [hveq] at hva hvs
  exact ⟨hva, hvs⟩

theorem noqueue_of_unassigned {s : State} {uid : Nat} {u : UserR}
    (hc : Consistent s) (hu : findUser s uid = some u)
    (ha : u.assigned_staff_id = none) :
    ∀ st ∈ s.staffs, uid ∉ st.queue := by
  intro st hst hmem
  have := (queue_only_assigned hc hu hst hmem).1
  rw [ha] at this
  cases this

theorem remove_snd_fields (s : State) (user : UserR) :
    (removeFromStaffQueue s user).2.id = user.id ∧
    (removeFromStaffQueue s user).2.estimated_service_time
      = user.estimated_service_time := by
  unfold removeFromStaffQueue
  cases user.assigned_staff_id with
  | none => exact ⟨rfl, rfl⟩
  | some sid =>
    dsimp only
    cases findStaff s sid with
    | none => exact ⟨rfl, rfl⟩
    | some st => exact ⟨rfl, rfl⟩

theorem remove_save_comm {s : State} (user u1 : UserR)
    (hid : u1.id = user.id)
    (ha : u1.assigned_staff_id = user.assigned_staff_id)
    (hest : u1.estimated_service_time = user.estimated_service_time) :
    (removeFromStaffQueue (saveUser s u1) u1).1
      = saveUser (removeFromStaffQueue s user).1 u1 := by
  unfold removeFromStaffQueue
  rw [ha]
  cases hac : user.assigned_staff_id with
  | none => rfl
  | some sid =>
    dsimp only
    have hfs : findStaff (saveUser s u1) sid = findStaff s sid := rfl
    rw [hfs]
    cases hst : findStaff s sid with
    | none => rfl
    | some staffA =>
      dsimp only
      rw [hid, hest]
      rfl

theorem remove_save_status_comm (s : State) (user : UserR) (st2 : Status) :
    (removeFromStaffQueue (saveUser s { user with status := st2 })
        { user with status := st2 }).1
      = saveUser (removeFromStaffQueue s user).1 { user with status := st2 } :=
  remove_save_comm user { user with status := st2 } rfl rfl rfl

theorem consistent_rebuild (X : State) :
    Consistent (rebuildHeap X) ↔ Consistent X := Iff.rfl

theorem saveStaff_consistent {s : State} {st1 : StaffR}
    (hc : Consistent s) (hok : StaffOk s st1) :
    Consistent (saveStaff s st1) := by
  refine ⟨hc.1, staffsNodup_saveStaff st1 hc.2.1, hc.2.2.1, ?_⟩
  intro st hst
  rcases staffs_saveStaff_mem hst with rfl | ⟨hm, _⟩
  · exact hok
  · exact hc.2.2.2 st hm

theorem saveUser_consistent_noqueue {t : State} {uid : Nat} {w w2 : UserR}
    (hc : Consistent t) (hw : findUser t uid = some w)
    (hnq : ∀ st ∈ t.staffs, uid ∉ st.queue)
    (hid : w2.id = uid)
    (hpos : Q.blt (Q.ofInt 0) w2.estimated_service_time = true)
    (hest : w2.estimated_service_time = w.estimated_service_time) :
    Consistent (saveUser t w2) ∧
      ∀ st ∈ (saveUser t w2).staffs, uid ∉ st.queue := by
  have hw2 : findUser t w2.id = some w := by
    rw [hid]
    exact hw
  have hq : ∀ q, qsum (saveUser t w2) q = qsum t q :=
    fun q => qsum_congr (lookupEst_saveUser hw2 hest) q
  constructor
  · refine ⟨usersNodup_saveUser w2 hc.1, hc.2.1, ?_, ?_⟩
    · intro v hv
      rcases users_saveUser_mem hv with rfl | ⟨hvm, _⟩
      · exact hpos
      · exact hc.2.2.1 v hvm
    · intro st hst
      have hst' : st ∈ t.staffs := hst
      obtain ⟨h1, h2, h3⟩ := hc.2.2.2 st hst'
      refine ⟨h1, ?_, ?_⟩
      · rw [Q.veq_iff] at h2 ⊢
        rw [hq]
        exact h2
      · intro x hx
        obtain ⟨v, hv, hvid, hva, hvs⟩ := h3 x hx
        have hxne : x ≠ uid := fun he => hnq st hst' (he ▸ hx)
        have hvne : v.id ≠ w2.id := by
          rw [hvid, hid]
          exact hxne
        exact ⟨v, mem_saveUser_of_ne hv hvne, hvid, hva, hvs⟩
  · intro st hst
    exact hnq st hst

theorem remove_consistent {s : State} {uid : Nat} {u : UserR}
    (hc : Consistent s) (hu : findUser s uid = some u) :
    Consistent (removeFromStaffQueue s u).1 ∧
      ∀ st ∈ (removeFromStaffQueue s u).1.staffs, uid ∉ st.queue := by
  have huid : u.id = uid := (findUser_mem hu).2
  cases ha : u.assigned_staff_id with
  | none =>
    rw [remove_run_noassign ha]
    exact ⟨hc, noqueue_of_unassigned hc hu ha⟩
  | some sid =>
    cases hst : findStaff s sid with
    | none =>
      rw [remove_run_nostaff ha hst]
      refine ⟨hc, ?_⟩
      intro st hstm hmem
      have h1 := (queue_only_assigned hc hu hstm hmem).1
      rw [ha] at h1
      injection h1 with h1
      rw [h1, findStaff_of_mem hc.2.1 hstm] at hst
      cases hst
    | some staffA =>
      rw [remove_run_some ha hst]
      dsimp only
      rw [huid]
      have hstm : staffA ∈ s.staffs := (findStaff_mem hst).1
      have hsid : staffA.id = sid := (findStaff_mem hst).2
      obtain ⟨hA1, hA2, hA3⟩ := hc.2.2.2 staffA hstm
      have hposu : Q.blt (Q.ofInt 0) u.estimated_service_time = true :=
        hc.2.2.1 u (findUser_mem hu).1
      have hnonneg : ∀ x ∈ staffA.queue, 0 ≤ (lookupEst s x).val := by
        intro x hx
        obtain ⟨v, hv, hvid, _, _⟩ := hA3 x hx
        have hfv : findUser s x = some v := by
          rw [← hvid]
          exact findUser_of_mem hc.1 hv
        rw [lookupEst_eq hfv]
        have hpv := (Q.blt_iff _ _).mp (hc.2.2.1 v hv)
        rw [Q.val_ofInt] at hpv
        exact le_of_lt (by exact_mod_cast hpv)
      have hother : ∀ st ∈ s.staffs, st.id ≠ staffA.id → uid ∉ st.queue := by
        intro st hstm2 hne hmem
        have h1 := (queue_only_assigned hc hu hstm2 hmem).1
        rw [ha] at h1
        injection h1 with h1
        exact hne (by rw [← h1, hsid])
      by_cases hmem : uid ∈ staffA.queue
      · have hlt : (staffA.queue.filter (fun i => i ≠ uid)).length
            < staffA.queue.length := by
          rw [List.length_filter_lt_length_iff_exists]
          exact ⟨uid, hmem, by simp⟩
        rw [if_pos (by omega : 0 < staffA.queue.length
          - (staffA.queue.filter (fun i => i ≠ uid)).length)]
        constructor
        · apply saveStaff_consistent hc
          refine ⟨hA1.filter _, ?_, ?_⟩
          · rw [Q.veq_iff, Q.val_max0, Q.val_sub, estOr15_of_pos hposu,
              qsum_filter hA1 hmem, lookupEst_eq hu]
            have hW := (Q.veq_iff _ _).mp hA2
            have hleQ := member_le_qsum hmem hnonneg
            rw [lookupEst_eq hu] at hleQ
            rw [hW, max_eq_right (by linarith)]
          · intro x hx
            obtain ⟨hxq, _⟩ := List.mem_filter.mp hx
            exact hA3 x hxq
        · intro st hstn hmem2
          rcases staffs_saveStaff_mem hstn with rfl | ⟨hm, hne⟩
          · have := List.mem_filter.mp hmem2
            simp at this
          · exact hother st hm hne hmem2
      · rw [qsum_filter_not_mem hmem]
        rw [if_neg (by omega : ¬ 0 < staffA.queue.length - staffA.queue.length)]
        constructor
        · exact saveStaff_consistent hc ⟨hA1, hA2, hA3⟩
        · intro st hstn hmem2
          rcases staffs_saveStaff_mem hstn with rfl | ⟨hm, hne⟩
          · exact hmem hmem2
          · exact hother st hm hne hmem2

theorem schedule_step_consistent {t : State} {uid : Nat} {w w2 : UserR}
    {tgt : StaffR} {X : Q}
    (hc : Consistent t) (hw : findUser t uid = some w)
    (hnq : ∀ st ∈ t.staffs, uid ∉ st.queue)
    (htgt : tgt ∈ t.staffs)
    (hid : w2.id = uid)
    (hest : w2.estimated_service_time = w.estimated_service_time)
    (hassigned : w2.assigned_staff_id = some tgt.id)
    (hstatus : w2.status ∈ activeStatuses)
    (hX : X.val = w.estimated_service_time.val) :
    Consistent (saveStaff (saveUser t w2)
      { tgt with queue := tgt.queue ++ [uid], workload := tgt.workload + X }) := by
  have hpos : Q.blt (Q.ofInt 0) w2.estimated_service_time = true := by
    rw [hest]
    exact hc.2.2.1 w (findUser_mem hw).1
  obtain ⟨hcs, _⟩ := saveUser_consistent_noqueue hc hw hnq hid hpos hest
  apply saveStaff_consistent hcs
  obtain ⟨h1, h2, h3⟩ := hc.2.2.2 tgt htgt
  have hq : ∀ q, qsum (saveUser t w2) q = qsum t q :=
    fun q => qsum_congr (lookupEst_saveUser (by rw [hid]; exact hw) hest) q
  refine ⟨?_, ?_, ?_⟩
  · simp [List.nodup_append, h1, hnq tgt htgt]
  · rw [Q.veq_iff, Q.val_add, hq, qsum_append_one, lookupEst_eq hw, hX]
    have hW := (Q.veq_iff _ _).mp h2
    rw [hW]
  · intro x hx
    rcases List.mem_append.mp hx with hxq | hxu
    · obtain ⟨v, hv, hvid, hva, hvs⟩ := h3 x hxq
      have hxne : x ≠ uid := fun he => hnq tgt htgt (he ▸ hxq)
      have hvne : v.id ≠ w2.id := by
        rw [hvid, hid]
        exact hxne
      exact ⟨v, mem_saveUser_of_ne hv hvne, hvid, hva, hvs⟩
    · have hxu' : x = uid := by simpa using hxu
      subst hxu'
      have hw2mem : w2 ∈ (saveUser t w2).users := by
        have hfw2 : findUser (saveUser t w2) w2.id = some w2 := by
          rw [findUser_saveUser, if_pos rfl, hid, hw]
          rfl
        exact (findUser_mem hfw2).1
      exact ⟨w2, hw2mem, hid, hassigned, hstatus⟩

theorem findBestStaff_mem {s : State} {nowMin : Nat} {staff : StaffR}
    (h : findBestStaff s nowMin = some staff) : staff ∈ s.staffs := by
  unfold findBestStaff at h
  dsimp only at h
  cases hb : (s.staffs.filter (fun st => st.active)).foldl
      (bestLoop nowMin) none with
  | some b =>
    rw [hb] at h
    injection h with h
    rcases bestLoop_fold_mem _ none b hb with hacc | ⟨hm, _⟩
    · cases hacc
    · exact List.mem_of_mem_filter (h ▸ hm)
  | none =>
    rw [hb] at h
    dsimp only at h
    by_cases he : (s.staffs.filter (fun st => st.active)).isEmpty
    · rw [if_pos he] at h
      cases h
    · rw [if_neg he] at h
      have hmem : staff ∈ sortByWorkload (s.staffs.filter (fun st => st.active)) :=
        List.mem_of_mem_head? h
      exact List.mem_of_mem_filter ((sortByWorkload_perm _).mem_iff.mp hmem)

/-- C2 (amended): from a consistent state (unique ids, positive service
estimates, every staff's queue duplicate-free with workload equal to its
queued service total and members assigned to it), assignDoctor,
markCompleted, markNoShow, cancelUser and reassignUser always return a
state that is still consistent, whatever their outcome; scheduleUser
preserves consistency provided the patient is not already sitting in
some staff queue — re-scheduling an already-queued patient appends a
second reference and breaks the no-duplicate/workload invariant. -/
theorem C2_staff_invariant (now : Q) (nowMin : Nat) (s : State)
    (uid sid : Nat) (hc : Consistent s) :
    ((∀ st ∈ s.staffs, uid ∉ st.queue) →
      Consistent (scheduleUser now nowMin s uid).2.1) ∧
    Consistent (assignDoctor now s uid sid).2.1 ∧
    Consistent (markCompleted s uid).2.1 ∧
    Consistent (markNoShow s uid).2.1 ∧
    Consistent (cancelUser s uid).2.1 ∧
    Consistent (reassignUser now s uid).2.1 := by
  refine ⟨?_, ?_, ?_, ?_, ?_, ?_⟩
  · -- scheduleUser
    intro hnq
    unfold scheduleUser
    cases hu : findUser s uid with
    | none => exact hc
    | some user =>
      dsimp only
      by_cases hterm : user.status = Status.cancelled ∨
          user.status = Status.noShow ∨ user.status = Status.completed
      · rw [if_pos hterm]
        exact hc
      · rw [if_neg hterm]
        cases hbest : findBestStaff s nowMin with
        | none => exact hc
        | some staff =>
          dsimp only
          have huid : user.id = uid := (findUser_mem hu).2
          rw [huid]
          exact schedule_step_consistent hc hu hnq (findBestStaff_mem hbest)
            rfl rfl rfl (by show Status.scheduled ∈ activeStatuses; decide) rfl
  · -- assignDoctor
    unfold assignDoctor
    cases hu : findUser s uid with
    | none => exact hc
    | some user =>
      dsimp only
      obtain ⟨hcr, hnqr⟩ := remove_consistent hc hu
      have hfr : findUser (removeFromStaffQueue s user).1 uid = some user := by
        rw [findUser_eq_of_users_eq (remove_users s user) uid]
        exact hu
      rw [hfr]
      dsimp only
      cases hfs : findStaff (removeFromStaffQueue s user).1 sid with
      | none => exact hcr
      | some freshStaff =>
        dsimp only
        have hnm : uid ∉ freshStaff.queue :=
          hnqr freshStaff (findStaff_mem hfs).1
        have haiq : freshStaff.queue.any (fun i => i = uid) = false := by
          rw [List.any_eq_false]
          intro x hx
          simp only [decide_eq_true_eq]
          intro he
          exact hnm (he ▸ hx)
        rw [haiq]
        simp only [Bool.false_eq_true, if_false]
        have huid : user.id = uid := (findUser_mem hu).2
        rw [huid]
        have hpos := hc.2.2.1 user (findUser_mem hu).1
        exact schedule_step_consistent hcr hfr hnqr (findStaff_mem hfs).1
          rfl rfl rfl (by show Status.scheduled ∈ activeStatuses; decide)
          (by rw [estOr15_of_pos hpos])
  · -- markCompleted
    unfold markCompleted
    cases hu : findUser s uid with
    | none => exact hc
    | some user =>
      dsimp only
      have huid : user.id = uid := (findUser_mem hu).2
      have hpos := hc.2.2.1 user (findUser_mem hu).1
      by_cases hA : user.assigned_staff_id.isSome = true
      · rw [if_pos hA]
        rw [remove_save_status_comm s user Status.completed]
        obtain ⟨hcr, hnqr⟩ := remove_consistent hc hu
        have hfr : findUser (removeFromStaffQueue s user).1 uid = some user := by
          rw [findUser_eq_of_users_eq (remove_users s user) uid]
          exact hu
        refine (saveUser_consistent_noqueue hcr hfr hnqr ?_ ?_ ?_).1
        · exact huid
        · exact hpos
        · rfl
      · rw [if_neg hA]
        have hnone : user.assigned_staff_id = none := by
          cases ho : user.assigned_staff_id with
          | none => rfl
          | some B =>
            rw [ho] at hA
            exact absurd rfl hA
        dsimp only
        refine (saveUser_consistent_noqueue hc hu
          (noqueue_of_unassigned hc hu hnone) ?_ ?_ ?_).1
        · exact huid
        · exact hpos
        · rfl
  · -- markNoShow
    unfold markNoShow
    cases hu : findUser s uid with
    | none => exact hc
    | some user =>
      dsimp only
      have huid : user.id = uid := (findUser_mem hu).2
      have hpos := hc.2.2.1 user (findUser_mem hu).1
      by_cases hA : user.assigned_staff_id.isSome = true
      · rw [if_pos hA]
        rw [remove_save_status_comm s user Status.noShow]
        obtain ⟨hcr, hnqr⟩ := remove_consistent hc hu
        have hfr : findUser (removeFromStaffQueue s user).1 uid = some user := by
          rw [findUser_eq_of_users_eq (remove_users s user) uid]
          exact hu
        refine (saveUser_consistent_noqueue hcr hfr hnqr ?_ ?_ ?_).1
        · exact huid
        · exact hpos
        · rfl
      · rw [if_neg hA]
        have hnone : user.assigned_staff_id = none := by
          cases ho : user.assigned_staff_id with
          | none => rfl
          | some B =>
            rw [ho] at hA
            exact absurd rfl hA
        dsimp only
        refine (saveUser_consistent_noqueue hc hu
          (noqueue_of_unassigned hc hu hnone) ?_ ?_ ?_).1
        · exact huid
        · exact hpos
        · rfl
  · -- cancelUser
    unfold cancelUser
    cases hu : findUser s uid with
    | none => exact hc
    | some user =>
      dsimp only
      have huid : user.id = uid := (findUser_mem hu).2
      obtain ⟨hcr, hnqr⟩ := remove_consistent hc hu
      have hfr : findUser (removeFromStaffQueue s user).1 uid = some user := by
        rw [findUser_eq_of_users_eq (remove_users s user) uid]
        exact hu
      have hid2 : ((removeFromStaffQueue s user).2).id = uid :=
        (remove_snd_fields s user).1.trans huid
      have hest2 : ((removeFromStaffQueue s user).2).estimated_service_time
          = user.estimated_service_time := (remove_snd_fields s user).2
      have hpos2 : Q.blt (Q.ofInt 0)
          ((removeFromStaffQueue s user).2).estimated_service_time = true := by
        rw [hest2]
        exact hc.2.2.1 user (findUser_mem hu).1
      refine (saveUser_consistent_noqueue hcr hfr hnqr ?_ ?_ ?_).1
      · exact hid2
      · exact hpos2
      · exact hest2
  · -- reassignUser
    unfold reassignUser
    cases hu : findUser s uid with
    | none => exact hc
    | some user =>
      dsimp only
      have huid : user.id = uid := (findUser_mem hu).2
      have hpos := hc.2.2.1 user (findUser_mem hu).1
      by_cases hA : user.assigned_staff_id.isSome = true
      · rw [if_pos hA]
        obtain ⟨hcr, hnqr⟩ := remove_consistent hc hu
        have hfr : findUser (removeFromStaffQueue s user).1 uid = some user := by
          rw [findUser_eq_of_users_eq (remove_users s user) uid]
          exact hu
        have hid2 : ((removeFromStaffQueue s user).2).id = uid :=
          (remove_snd_fields s user).1.trans huid
        have hest2 : ((removeFromStaffQueue s user).2).estimated_service_time
            = user.estimated_service_time := (remove_snd_fields s user).2
        have hpos2 : Q.blt (Q.ofInt 0)
            ((removeFromStaffQueue s user).2).estimated_service_time = true := by
          rw [hest2]
          exact hc.2.2.1 user (findUser_mem hu).1
        refine (saveUser_consistent_noqueue hcr hfr hnqr ?_ ?_ ?_).1
        · exact hid2
        · exact hpos2
        · exact hest2
      · rw [if_neg hA]
        have hnone : user.assigned_staff_id = none := by
          cases ho : user.assigned_staff_id with
          | none => rfl
          | some B =>
            rw [ho] at hA
            exact absurd rfl hA
        dsimp only
        refine (saveUser_consistent_noqueue hc hu
          (noqueue_of_unassigned hc hu hnone) ?_ ?_ ?_).1
        · exact huid
        · exact hpos
        · rfl

theorem C2_staff_invariant_witness :
    Consistent c2State ∧ Consistent (markCompleted c2State 0).2.1 :=
  ⟨by decide,
    (C2_staff_invariant (Q.ofInt 0) 600 c2State 0 0 (by decide)).2.2.1⟩

/-- C2 counterexample: from the consistent `c2State`, calling
`scheduleUser` twice on the same patient leaves staff 0's queue holding
the patient reference twice, so the no-duplicate half of the invariant
fails after a mutating operation. -/
theorem C2_counterexample :
    Consistent c2State ∧
    ((findStaff (scheduleUser (Q.ofInt 0) 600
        (scheduleUser (Q.ofInt 0) 600 c2State 0).2.1 0).2.1 0).map
      (fun st => st.queue)) = some [0, 0] ∧
    ¬ ([0, 0] : List Nat).Nodup := by
  refine ⟨by decide, by decide, by decide⟩


/-! ## Ordering-Index invariant machinery (claim C1) -/

theorem usersNodup_of_users_eq {s s' : State} (h : s'.users = s.users)
    (hn : UsersNodup s) : UsersNodup s' := by
  unfold UsersNodup
  rw [userIds_eq_of_users_eq h]
  exact hn

theorem heapInv_congr {s1 s2 : State} (hu : s1.users = s2.users)
    (hh : s1.heap = s2.heap) (h : HeapInv s2) : HeapInv s1 := by
  unfold HeapInv heapIds activeIds
  rw [hu, hh]
  exact h

theorem not_mem_heap_of_inactive {s : State} {uid : Nat} {u : UserR}
    (hn : UsersNodup s) (hinv : HeapInv s) (hu : findUser s uid = some u)
    (hna : isActiveStatus u.status = false) : uid ∉ heapIds s := by
  intro hmem
  have hact : uid ∈ activeIds s := hinv.2.mem_iff.mp hmem
  unfold activeIds at hact
  obtain ⟨v, hv, hvid⟩ := List.mem_map.mp hact
  obtain ⟨hvmem, hvact⟩ := List.mem_filter.mp hv
  have hveq : v = u :=
    mem_id_unique hn hvmem (findUser_mem hu).1
      (hvid.trans (findUser_mem hu).2.symm)
  rw [hveq] at hvact
  simp [hna] at hvact

theorem map_replace_of_ne (u4 : UserR) :
    ∀ l : List UserR, (∀ v ∈ l, v.id ≠ u4.id) →
      l.map (fun v => if v.id = u4.id then u4 else v) = l := by
  intro l
  induction l with
  | nil =>
    intro _
    rfl
  | cons a t ih =>
    intro hl
    rw [List.map_cons, if_neg (hl a (by simp)),
      ih (fun v hv => hl v (by simp [hv]))]

theorem activeIds_saveUser_activate {s : State} {uid : Nat} {u u4 : UserR}
    (hn : UsersNodup s) (hu : findUser s uid = some u)
    (hna : isActiveStatus u.status = false)
    (hid : u4.id = uid) (hact : isActiveStatus u4.status = true) :
    (activeIds (saveUser s u4)).Perm (activeIds s ++ [uid]) := by
  have huid : u.id = uid := (findUser_mem hu).2
  obtain ⟨l1, l2, hsplit⟩ := List.append_of_mem (findUser_mem hu).1
  have hn2 : (userIds s).Nodup := hn
  unfold userIds at hn2
  rw [hsplit, List.map_append, List.map_cons, List.nodup_append] at hn2
  obtain ⟨hnd1, hnd2, hdisj⟩ := hn2
  have h1 : ∀ v ∈ l1, v.id ≠ u4.id := by
    intro v hv he
    exact hdisj (List.mem_map_of_mem _ hv)
      (by rw [he, hid, ← huid]; exact List.mem_cons_self _ _)
  have h2 : ∀ v ∈ l2, v.id ≠ u4.id := by
    intro v hv he
    have hnc := (List.nodup_cons.mp hnd2).1
    have hm : u.id ∈ l2.map (fun w => w.id) := by
      have hvu : u.id = v.id := by rw [huid, ← hid, he]
      rw [hvu]
      exact List.mem_map_of_mem _ hv
    exact hnc hm
  have husers : (saveUser s u4).users = l1 ++ u4 :: l2 := by
    show s.users.map (fun v => if v.id = u4.id then u4 else v) = _
    rw [hsplit, List.map_append, List.map_cons, map_replace_of_ne u4 l1 h1,
      map_replace_of_ne u4 l2 h2, if_pos (by rw [huid, hid] : u.id = u4.id)]
  have hnact : ¬ isActiveStatus u.status = true := by
    rw [hna]
    simp
  have hA : activeIds (saveUser s u4)
      = (l1.filter (fun v => isActiveStatus v.status)).map (fun v => v.id)
        ++ uid :: (l2.filter (fun v => isActiveStatus v.status)).map
          (fun v => v.id) := by
    unfold activeIds
    rw [husers, List.filter_append, List.filter_cons, if_pos hact,
      List.map_append, List.map_cons, hid]
  have hB : activeIds s
      = (l1.filter (fun v => isActiveStatus v.status)).map (fun v => v.id)
        ++ (l2.filter (fun v => isActiveStatus v.status)).map
          (fun v => v.id) := by
    unfold activeIds
    rw [hsplit, List.filter_append, List.filter_cons, if_neg hnact,
      List.map_append]
  rw [hA, hB]
  have hstep : (uid :: (l2.filter (fun v => isActiveStatus v.status)).map
      (fun v => v.id)).Perm
        ((l2.filter (fun v => isActiveStatus v.status)).map (fun v => v.id)
          ++ [uid]) :=
    (List.perm_append_singleton uid _).symm
  have hh := List.Perm.append_left
    ((l1.filter (fun v => isActiveStatus v.status)).map (fun v => v.id)) hstep
  rw [← List.append_assoc] at hh
  exact hh

theorem heapInv_push {s : State} {uid : Nat} {u u4 : UserR}
    (hn : UsersNodup s) (hinv : HeapInv s) (hu : findUser s uid = some u)
    (hna : isActiveStatus u.status = false)
    (hid : u4.id = uid) (hact : isActiveStatus u4.status = true) :
    HeapInv (heapPush (saveUser s u4) (HeapEntry.mk u4.id u4.score)) := by
  have hnm : uid ∉ heapIds s := not_mem_heap_of_inactive hn hinv hu hna
  have hih : heapIds (heapPush (saveUser s u4) (HeapEntry.mk u4.id u4.score))
      = heapIds s ++ [uid] := by
    unfold heapIds heapPush
    dsimp only
    rw [heap_saveUser, List.map_append]
    simp [hid]
  constructor
  · rw [hih]
    simp [List.nodup_append, hinv.1, hnm]
  · rw [hih]
    exact (hinv.2.append_right [uid]).trans
      (activeIds_saveUser_activate hn hu hna hid hact).symm

theorem usersNodup_foldl (f : UserR → UserR) :
    ∀ (l : List UserR) (t : State), UsersNodup t →
      UsersNodup (l.foldl (fun st u => saveUser st (f u)) t) := by
  intro l
  induction l with
  | nil =>
    intro t h
    exact h
  | cons x xs ih =>
    intro t h
    exact ih _ (usersNodup_saveUser _ h)

theorem userIds_map_id_preserving (s : State) (f : UserR → UserR)
    (hf : ∀ v, (f v).id = v.id) :
    userIds { s with users := s.users.map f } = userIds s := by
  unfold userIds
  dsimp only
  rw [List.map_map]
  exact List.map_congr_left (fun v _ => hf v)

theorem usersNodup_of_userIds_eq {s s' : State} (h : userIds s' = userIds s)
    (hn : UsersNodup s) : UsersNodup s' := by
  unfold UsersNodup
  rw [h]
  exact hn

/-- C1 (amended): starting from a state whose user ids are unique and
whose Ordering Index holds exactly the active (waiting/scheduled)
patient ids without duplicates, every listed engine operation returns a
state in which that index invariant still holds.  The ten operations
other than bookAppointment end every successful run with a full index
rebuild ([IndexEv.rebuild]); bookAppointment instead maintains the
invariant on its plain path by an incremental push of the new entry and
only rebuilds when an assignment step runs inside the call. -/
theorem C1_index_invariant (now : Q) (nowMin : Nat) (s : State)
    (uid sid : Nat) (date : Q) (vt : VisitType) (pref : Option Nat)
    (newStatus : Status) (hn : UsersNodup s) (hinv : HeapInv s) :
    HeapInv (bookAppointment now nowMin s uid date vt pref).2.1 ∧
    (HeapInv (scheduleUser now nowMin s uid).2.1 ∧
      ∀ x, (scheduleUser now nowMin s uid).1 = Except.ok x →
        (scheduleUser now nowMin s uid).2.2 = [IndexEv.rebuild]) ∧
    (HeapInv (assignDoctor now s uid sid).2.1 ∧
      ∀ x, (assignDoctor now s uid sid).1 = Except.ok x →
        (assignDoctor now s uid sid).2.2 = [IndexEv.rebuild]) ∧
    (HeapInv (updateStatus s uid newStatus).2.1 ∧
      ∀ x, (updateStatus s uid newStatus).1 = Except.ok x →
        (updateStatus s uid newStatus).2.2 = [IndexEv.rebuild]) ∧
    (HeapInv (cancelUser s uid).2.1 ∧
      ∀ x, (cancelUser s uid).1 = Except.ok x →
        (cancelUser s uid).2.2 = [IndexEv.rebuild]) ∧
    (HeapInv (markCompleted s uid).2.1 ∧
      ∀ x, (markCompleted s uid).1 = Except.ok x →
        (markCompleted s uid).2.2 = [IndexEv.rebuild]) ∧
    (HeapInv (markNoShow s uid).2.1 ∧
      ∀ x, (markNoShow s uid).1 = Except.ok x →
        (markNoShow s uid).2.2 = [IndexEv.rebuild]) ∧
    (HeapInv (reassignUser now s uid).2.1 ∧
      ∀ x, (reassignUser now s uid).1 = Except.ok x →
        (reassignUser now s uid).2.2 = [IndexEv.rebuild]) ∧
    (HeapInv (emergencyOverride s uid).2.1 ∧
      ∀ x, (emergencyOverride s uid).1 = Except.ok x →
        (emergencyOverride s uid).2.2 = [IndexEv.rebuild]) ∧
    (HeapInv (optimizeQueue now s).2.1 ∧
      (optimizeQueue now s).2.2 = [IndexEv.rebuild]) ∧
    (HeapInv (deleteStaff now s sid).2.1 ∧
      ∀ x, (deleteStaff now s sid).1 = Except.ok x →
        (deleteStaff now s sid).2.2 = [IndexEv.rebuild]) := by
  refine ⟨?_, ?_, ?_, ?_, ?_, ?_, ?_, ?_, ?_, ?_, ?_⟩
  · -- bookAppointment
    unfold bookAppointment
    cases hu : findUser s uid with
    | none => exact hinv
    | some u =>
      dsimp only
      by_cases hgate : (u.status ≠ Status.inactive ∧
          u.status ≠ Status.completed ∧ u.status ≠ Status.cancelled)
      · rw [if_pos hgate]
        exact hinv
      · rw [if_neg hgate]
        have huid : u.id = uid := (findUser_mem hu).2
        have hstat : u.status = Status.inactive ∨ u.status = Status.completed ∨
            u.status = Status.cancelled := by
          by_contra hcon
          push_neg at hcon
          exact hgate ⟨hcon.1, hcon.2.1, hcon.2.2⟩
        have hna : isActiveStatus u.status = false := by
          rcases hstat with h | h | h <;> rw [h] <;> rfl
        have hcore : ∀ u4 : UserR, u4.id = u.id →
            findUser (heapPush (saveUser s u4) (HeapEntry.mk u4.id u4.score))
              uid = some u4 := by
          intro u4 h4
          show findUser (saveUser s u4) uid = some u4
          rw [findUser_saveUser]
          have h5 : uid = u4.id := by omega
          rw [if_pos h5, hu]
          rfl
        cases hpref : pref with
        | some d =>
          dsimp only
          obtain ⟨hBid, _, _, _, hBst, _⟩ := bookCore_fields now u date vt (some d)
          have hBact : isActiveStatus (bookCore now u date vt (some d)).status
              = true := by
            rw [hBst]
            rfl
          have hfind2 := hcore _ hBid
          have hS2inv := heapInv_push hn hinv hu hna (hBid.trans huid) hBact
          have hS2n : UsersNodup (heapPush
              (saveUser s (bookCore now u date vt (some d)))
              (HeapEntry.mk (bookCore now u date vt (some d)).id
                (bookCore now u date vt (some d)).score)) :=
            usersNodup_saveUser _ hn
          rcases assignDoctor_shape now _ uid d hfind2 with
            ⟨e, s1, heq, hus, hhp⟩ |
            ⟨u2x, st2x, X, heq, hids, hfX, _, _, _, _, _, _⟩
          · rw [heq]
            dsimp only
            have hinv1 : HeapInv s1 := heapInv_congr hus hhp hS2inv
            have hn1 : UsersNodup s1 := usersNodup_of_users_eq hus hS2n
            have hfs1 := (findUser_eq_of_users_eq hus uid).trans hfind2
            by_cases hvt : vt = VisitType.emergency
            · rw [if_pos hvt]
              rcases scheduleUser_shape now nowMin s1 uid hfs1 with
                ⟨e2, heq2⟩ |
                ⟨u2y, st2y, Y, heq2, hidsY, _, _, _, _, _, _, _⟩
              · rw [heq2]
                exact hinv1
              · rw [heq2]
                exact heapInv_rebuild (usersNodup_of_userIds_eq hidsY hn1)
            · rw [if_neg hvt]
              exact hinv1
          · rw [heq]
            exact heapInv_rebuild (usersNodup_of_userIds_eq hids hS2n)
        | none =>
          dsimp only
          obtain ⟨hBid, _, _, _, hBst, _⟩ := bookCore_fields now u date vt none
          have hBact : isActiveStatus (bookCore now u date vt none).status
              = true := by
            rw [hBst]
            rfl
          have hfind2 := hcore _ hBid
          have hS2inv := heapInv_push hn hinv hu hna (hBid.trans huid) hBact
          have hS2n : UsersNodup (heapPush
              (saveUser s (bookCore now u date vt none))
              (HeapEntry.mk (bookCore now u date vt none).id
                (bookCore now u date vt none).score)) :=
            usersNodup_saveUser _ hn
          rw [bookCore_pd_none]
          cases hpd : u.preferred_doctor with
          | some d =>
            dsimp only
            rcases assignDoctor_shape now _ uid d hfind2 with
              ⟨e, s1, heq, hus, hhp⟩ |
              ⟨u2x, st2x, X, heq, hids, hfX, _, _, _, _, _, _⟩
            · rw [heq]
              dsimp only
              have hinv1 : HeapInv s1 := heapInv_congr hus hhp hS2inv
              have hn1 : UsersNodup s1 := usersNodup_of_users_eq hus hS2n
              have hfs1 := (findUser_eq_of_users_eq hus uid).trans hfind2
              by_cases hvt : vt = VisitType.emergency
              · rw [if_pos hvt]
                rcases scheduleUser_shape now nowMin s1 uid hfs1 with
                  ⟨e2, heq2⟩ |
                  ⟨u2y, st2y, Y, heq2, hidsY, _, _, _, _, _, _, _⟩
                · rw [heq2]
                  exact hinv1
                · rw [heq2]
                  exact heapInv_rebuild (usersNodup_of_userIds_eq hidsY hn1)
              · rw [if_neg hvt]
                exact hinv1
            · rw [heq]
              exact heapInv_rebuild (usersNodup_of_userIds_eq hids hS2n)
          | none =>
            dsimp only
            by_cases hvt : vt = VisitType.emergency
            · rw [if_pos hvt]
              rcases scheduleUser_shape now nowMin _ uid hfind2 with
                ⟨e2, heq2⟩ |
                ⟨u2y, st2y, Y, heq2, hidsY, _, _, _, _, _, _, _⟩
              · rw [heq2]
                exact hS2inv
              · rw [heq2]
                exact heapInv_rebuild (usersNodup_of_userIds_eq hidsY hS2n)
            · rw [if_neg hvt]
              exact hS2inv
  · -- scheduleUser
    unfold scheduleUser
    cases hu : findUser s uid with
    | none => exact ⟨hinv, fun x hx => nomatch hx⟩
    | some user =>
      dsimp only
      by_cases hterm : user.status = Status.cancelled ∨
          user.status = Status.noShow ∨ user.status = Status.completed
      · rw [if_pos hterm]
        exact ⟨hinv, fun x hx => nomatch hx⟩
      · rw [if_neg hterm]
        cases hbest : findBestStaff s nowMin with
        | none => exact ⟨hinv, fun x hx => nomatch hx⟩
        | some staff =>
          dsimp only
          exact ⟨heapInv_rebuild (usersNodup_saveUser _ hn), fun x _ => rfl⟩
  · -- assignDoctor
    unfold assignDoctor
    cases hu : findUser s uid with
    | none => exact ⟨hinv, fun x hx => nomatch hx⟩
    | some user =>
      dsimp only
      have hinv1 : HeapInv (removeFromStaffQueue s user).1 :=
        heapInv_congr (remove_users s user) (remove_heap s user) hinv
      have hn1 : UsersNodup (removeFromStaffQueue s user).1 :=
        usersNodup_of_users_eq (remove_users s user) hn
      cases hf1 : findUser (removeFromStaffQueue s user).1 uid with
      | none => exact ⟨hinv1, fun x hx => nomatch hx⟩
      | some fresh =>
        dsimp only
        cases hfs : findStaff (removeFromStaffQueue s user).1 sid with
        | none => exact ⟨hinv1, fun x hx => nomatch hx⟩
        | some freshStaff =>
          dsimp only
          by_cases haiq : freshStaff.queue.any (fun i => i = uid) = true
          · rw [if_pos haiq]
            exact ⟨heapInv_rebuild (usersNodup_saveUser _ hn1), fun x _ => rfl⟩
          · rw [if_neg haiq]
            exact ⟨heapInv_rebuild (usersNodup_saveUser _ hn1), fun x _ => rfl⟩
  · -- updateStatus
    unfold updateStatus
    cases hu : findUser s uid with
    | none => exact ⟨hinv, fun x hx => nomatch hx⟩
    | some user =>
      dsimp only
      refine ⟨?_, fun x _ => rfl⟩
      apply heapInv_rebuild
      by_cases hcnd : (user.status ∈ activeStatuses ∧
          newStatus ∉ activeStatuses)
      · rw [if_pos hcnd]
        by_cases hs2 : user.assigned_staff_id.isSome = true
        · rw [if_pos hs2]
          exact usersNodup_of_users_eq (remove_users _ _)
            (usersNodup_saveUser _ hn)
        · rw [if_neg hs2]
          exact usersNodup_saveUser _ hn
      · rw [if_neg hcnd]
        exact usersNodup_saveUser _ hn
  · -- cancelUser
    unfold cancelUser
    cases hu : findUser s uid with
    | none => exact ⟨hinv, fun x hx => nomatch hx⟩
    | some user =>
      dsimp only
      exact ⟨heapInv_rebuild (usersNodup_saveUser _
        (usersNodup_of_users_eq (remove_users s user) hn)), fun x _ => rfl⟩
  · -- markCompleted
    unfold markCompleted
    cases hu : findUser s uid with
    | none => exact ⟨hinv, fun x hx => nomatch hx⟩
    | some user =>
      dsimp only
      refine ⟨?_, fun x _ => rfl⟩
      apply heapInv_rebuild
      by_cases hs2 : user.assigned_staff_id.isSome = true
      · rw [if_pos hs2]
        exact usersNodup_of_users_eq (remove_users _ _)
          (usersNodup_saveUser _ hn)
      · rw [if_neg hs2]
        exact usersNodup_saveUser _ hn
  · -- markNoShow
    unfold markNoShow
    cases hu : findUser s uid with
    | none => exact ⟨hinv, fun x hx => nomatch hx⟩
    | some user =>
      dsimp only
      refine ⟨?_, fun x _ => rfl⟩
      apply heapInv_rebuild
      by_cases hs2 : user.assigned_staff_id.isSome = true
      · rw [if_pos hs2]
        exact usersNodup_of_users_eq (remove_users _ _)
          (usersNodup_saveUser _ hn)
      · rw [if_neg hs2]
        exact usersNodup_saveUser _ hn
  · -- reassignUser
    unfold reassignUser
    cases hu : findUser s uid with
    | none => exact ⟨hinv, fun x hx => nomatch hx⟩
    | some user =>
      dsimp only
      refine ⟨?_, fun x _ => rfl⟩
      apply heapInv_rebuild
      by_cases hs2 : user.assigned_staff_id.isSome = true
      · rw [if_pos hs2]
        exact usersNodup_saveUser _
          (usersNodup_of_users_eq (remove_users s user) hn)
      · rw [if_neg hs2]
        exact usersNodup_saveUser _ hn
  · -- emergencyOverride
    unfold emergencyOverride
    cases hu : findUser s uid with
    | none => exact ⟨hinv, fun x hx => nomatch hx⟩
    | some user =>
      dsimp only
      exact ⟨heapInv_rebuild (usersNodup_saveUser _ hn), fun x _ => rfl⟩
  · -- optimizeQueue
    refine ⟨?_, rfl⟩
    apply heapInv_rebuild
    exact usersNodup_foldl _ _ _ hn
  · -- deleteStaff
    unfold deleteStaff
    cases hfs : findStaff s sid with
    | none => exact ⟨hinv, fun x hx => nomatch hx⟩
    | some staff =>
      dsimp only
      refine ⟨?_, fun x _ => rfl⟩
      apply heapInv_rebuild
      by_cases hq : staff.queue.isEmpty = true
      · rw [if_pos hq]
        exact hn
      · rw [if_neg hq]
        apply usersNodup_foldl
        unfold UsersNodup
        rw [userIds_map_id_preserving s _ ?hf]
        case hf =>
          intro v
          by_cases hcv : v.id ∈ staff.queue <;> simp [hcv]
        exact hn

theorem C1_index_invariant_witness :
    UsersNodup c10State ∧ HeapInv c10State ∧
    HeapInv (emergencyOverride c10State 0).2.1 :=
  ⟨by decide, by decide,
    ((C1_index_invariant (Q.ofInt 0) 600 c10State 0 0 (Q.ofInt 0)
      VisitType.regular none Status.waiting (by decide)
      (by decide)).2.2.2.2.2.2.2.2.1).1⟩

/-- C1 counterexample: a plain booking (no preferred doctor, not an
emergency) succeeds, yet its index side effect is a single incremental
push — no rebuild happens before the call returns. -/
theorem C1_counterexample :
    ((bookAppointment (Q.ofInt 0) 600 c6State 0 (Q.ofInt 0)
        VisitType.regular none).1.map (fun x => x.status))
      = Except.ok Status.waiting ∧
    IndexEv.rebuild ∉ (bookAppointment (Q.ofInt 0) 600 c6State 0 (Q.ofInt 0)
        VisitType.regular none).2.2 ∧
    (bookAppointment (Q.ofInt 0) 600 c6State 0 (Q.ofInt 0)
        VisitType.regular none).2.2.length = 1 := by
  refine ⟨by decide, by decide, by decide⟩

end SmartClinic
